import Mathlib

/-!
# Bullet-FLUIDS: particle store, removal flush, emitter and metaball sampling

A shallow embedding of `FluidDemo/Fluids/FluidSph.cpp` and `FluidDemo/Fluids/btFluidSph.h`.

Conventions of the embedding:

* `btScalar` is embedded as `ℚ`: arithmetic is exact; rounding, overflow and underflow are
  not modelled.  The division by a squared distance that is exactly zero in `getValue` is
  modelled explicitly (`scalarDiv`).  The results about scalars are identities between what a
  loop accumulates and a sum over the positions it reads; none concludes that a computed
  value is finite, that two computed values are ordered, or that two computed positions
  differ, since in the program that depends on rounding.
* C++ `int` values are embedded as `Int`; no operation below comes near the 32-bit range.
* The structure-of-arrays particle storage (`m_pos`, `m_vel`, `m_vel_eval`, ...), whose arrays
  all have the same size, is embedded as one list of per-particle records; the particle count
  is the length of that list.
* The particle store (`addParticle`, `removeParticle`), the array sort and the grid are used
  by these files but defined elsewhere; each such definition below says so and quotes the
  sentence of the specification it follows.
* Loops that may not end (the walk along a cell chain) take a fuel argument and return
  `none` when it runs out.
-/

namespace BulletFluids

/-- A three-component vector of scalars (`btVector3`). -/
structure btVector3 where
  x : ℚ
  y : ℚ
  z : ℚ
deriving DecidableEq

/-- The vector `(0, 0, 0)`. -/
def btVector3.zero : btVector3 := ⟨0, 0, 0⟩

/-- Component-wise sum (`operator+=`). -/
def btVector3.add (a b : btVector3) : btVector3 := ⟨a.x + b.x, a.y + b.y, a.z + b.z⟩

/-- The sentinel stored in a next-index field that links to no particle. -/
def INVALID_PARTICLE_INDEX : Int := -1

/-- The per-particle fields, one record per index of the structure-of-arrays storage. -/
structure Particle where
  m_pos : btVector3
  m_vel : btVector3
  m_vel_eval : btVector3
  m_accumulatedForce : btVector3
  m_sph_force : btVector3
  m_pressure : ℚ
  m_invDensity : ℚ
  m_nextFluidIndex : Int
  m_userPointer : Nat
deriving DecidableEq

/-- The particle storage: a capacity and the live particle records, index `i` of the arrays
being entry `i` of `slots`. -/
structure FluidParticles where
  m_maxParticles : Int
  slots : List Particle
deriving DecidableEq

/-- Number of live particles (`size()`). -/
def FluidParticles.size (P : FluidParticles) : Int := P.slots.length

/-- The capacity (`getMaxParticles()`). -/
def FluidParticles.getMaxParticles (P : FluidParticles) : Int := P.m_maxParticles

/-- Write of a record at an `int` index of the live range; an index outside `[0, size)`
reaches no live slot. -/
def writeSlot (slots : List Particle) (index : Int) (p : Particle) : List Particle :=
  if 0 ≤ index then slots.set index.toNat p else slots

/-- Read of the record at an `int` index, when it is in the live range. -/
def readSlot (slots : List Particle) (index : Int) : Option Particle :=
  if 0 ≤ index then slots.get? index.toNat else none

/-- Modelled from the spec: `FluidParticles::removeParticle` is not among the sources.  The
spec: "swap-removes — moves the last live particle's data into the removed slot (unless index
is already last), decrements count".  No range check is applied to `index`: a write at an index
outside the live range reaches no live slot, and the count is decremented all the same.  An
empty store, which has no last particle, is left as it is. -/
def FluidParticles.removeParticle (P : FluidParticles) (index : Int) : FluidParticles :=
  let lastIndex : Int := P.size - 1
  match readSlot P.slots lastIndex with
  | none => P
  | some lastParticle =>
    let moved := if index ≠ lastIndex then writeSlot P.slots index lastParticle else P.slots
    { P with slots := moved.dropLast }

/-- The comparison handed to the sort: `!(a < b)`. -/
def DescendingSortPredicate (a b : Int) : Bool := !(decide (a < b))

/-- Modelled from the spec: `btAlignedObjectArray<int>::heapSort` is not among the sources.
The spec: "sort pending indices descending".  The sorted arrangement of a list of integers is
unique, so the sorting algorithm is immaterial. -/
def heapSort (a : List Int) : List Int :=
  a.insertionSort (fun x y => DescendingSortPredicate x y = true)

/-- One iteration `i` of the duplicate-removal loop on the pair (array, `uniqueSize`). -/
def removeDuplicatesStep (st : List Int × Nat) (i : Nat) : List Int × Nat :=
  if st.1.getD i 0 ≠ st.1.getD (i - 1) 0 then
    (st.1.set st.2 (st.1.getD i 0), st.2 + 1)
  else st

/-- The in-place duplicate-removal loop of `removeMarkedFluids`: returns the rearranged array
and `uniqueSize`. -/
def removeDuplicates (a : List Int) : List Int × Nat :=
  if a.length ≠ 0 then
    (List.range' 1 (a.length - 1)).foldl removeDuplicatesStep (a, 1)
  else (a, 0)

/-- The removal loop `for(i = 0; i < uniqueSize; ++i) removeParticle(a[i])`. -/
def removeLoop (P : FluidParticles) (a : List Int) (uniqueSize : Nat) : FluidParticles :=
  (List.range uniqueSize).foldl (fun Q i => Q.removeParticle (a.getD i 0)) P

/-- The particle-store part of `removeMarkedFluids`: sort, remove duplicates, remove. -/
def flushParticles (P : FluidParticles) (pending : List Int) : FluidParticles :=
  let st := removeDuplicates (heapSort pending)
  removeLoop P st.1 st.2

/-- The arguments `a[0], ..., a[uniqueSize - 1]` of the removal loop, in call order. -/
def passedIndices (a : List Int) (uniqueSize : Nat) : List Int :=
  (List.range uniqueSize).map (fun i => a.getD i 0)

/-- The indices a flush of `pending` passes to `removeParticle`, in call order. -/
def flushIndices (pending : List Int) : List Int :=
  passedIndices (removeDuplicates (heapSort pending)).1 (removeDuplicates (heapSort pending)).2

/-- The calls `removeParticle(i)` issued for a list of indices, each paired with the particle
store at the moment of the call. -/
def removalCalls : FluidParticles → List Int → List (Int × FluidParticles)
  | _, [] => []
  | P, i :: rest => (i, P) :: removalCalls (P.removeParticle i) rest

/-- The calls issued by a flush of `pending` on the store `P`. -/
def flushCalls (P : FluidParticles) (pending : List Int) : List (Int × FluidParticles) :=
  removalCalls P (flushIndices pending)

/-- Out-of-place removal of adjacent duplicates: an entry is kept unless it equals the entry
right before it. -/
def dedupAdjacent : List Int → List Int
  | [] => []
  | [x] => [x]
  | x :: y :: rest => if x = y then dedupAdjacent (y :: rest) else x :: dedupAdjacent (y :: rest)

/-- Number of distinct values of `pending` that lie in `[0, n)`. -/
def distinctMarkedBelow (n : Int) (pending : List Int) : Nat :=
  (pending.dedup.filter (fun v => decide (0 ≤ v ∧ v < n))).length

/-- The records of `slots` at exactly the indices that do not occur in `pending`, in index
order. -/
def unmarkedRecords (slots : List Particle) (pending : List Int) : List Particle :=
  ((List.range slots.length).filter (fun i => decide (Int.ofNat i ∉ pending))).filterMap
    (fun i => slots.get? i)

/-! ## The grid -/

/-- Modelled from the spec: the class `Grid` is not among the sources.  The spec: "a uniform
3D partition over a fixed axis-aligned volume"; each cell of the chain layout holds "a linked
chain of particle indices", entered through the cell's chain head.  `m_heads` maps a cell
coordinate to its chain head; a coordinate without an entry has an empty chain. -/
structure Grid where
  m_min : btVector3
  m_max : btVector3
  m_simScale : ℚ
  m_cellSize : ℚ
  m_isLinkedList : Bool
  m_heads : List ((Int × Int × Int) × Int)
deriving DecidableEq

/-- Modelled from the spec: `Grid::getCellSize` is not among the sources; it reports the cell
size of the grid. -/
def Grid.getCellSize (G : Grid) : ℚ := G.m_cellSize

/-- Modelled from the spec: `Grid::clear` is not among the sources.  The spec: "reset of all
cell chain heads to empty/invalid". -/
def Grid.clear (G : Grid) : Grid := { G with m_heads := [] }

/-- Modelled from the spec: the cell coordinate of a position,
"floor((position - gridMin) * simScale / cellSize) per axis". -/
def Grid.cellCoord (G : Grid) (pos : btVector3) : Int × Int × Int :=
  (⌊(pos.x - G.m_min.x) * G.m_simScale / G.m_cellSize⌋,
   ⌊(pos.y - G.m_min.y) * G.m_simScale / G.m_cellSize⌋,
   ⌊(pos.z - G.m_min.z) * G.m_simScale / G.m_cellSize⌋)

/-- The chain head of a cell, `INVALID_PARTICLE_INDEX` for an empty chain. -/
def Grid.head (G : Grid) (c : Int × Int × Int) : Int :=
  (G.m_heads.lookup c).getD INVALID_PARTICLE_INDEX

/-- Modelled from the spec: one step of `Grid::insertParticles`, which is not among the
sources.  The spec: "compute its cell coordinate from position ... then push the particle's
index onto that cell's chain (prepend is fine)". -/
def Grid.insertParticle (st : Grid × List Particle) (i : Nat) : Grid × List Particle :=
  match st.2.get? i with
  | none => st
  | some p =>
    let c := st.1.cellCoord p.m_pos
    ({ st.1 with m_heads := (c, (i : Int)) :: st.1.m_heads.filter (fun e => decide (e.1 ≠ c)) },
     st.2.set i { p with m_nextFluidIndex := st.1.head c })

/-- Modelled from the spec: `Grid::insertParticles` is not among the sources.  The spec: "for
every live particle, compute its cell coordinate ... then push the particle's index onto that
cell's chain". -/
def Grid.insertParticles (G : Grid) (P : FluidParticles) : Grid × FluidParticles :=
  let st := (List.range P.slots.length).foldl Grid.insertParticle (G, P.slots)
  (st.1, { P with slots := st.2 })

/-! ## The fluid -/

/-- The fluid: particle store, pending-removal list and grid. -/
structure FluidSph where
  m_particles : FluidParticles
  m_removedFluidIndicies : List Int
  m_grid : Grid
deriving DecidableEq

/-- Number of live particles, `numParticles()`. -/
def FluidSph.numParticles (F : FluidSph) : Int := F.m_particles.size

/-- The capacity, `getMaxParticles()`. -/
def FluidSph.getMaxParticles (F : FluidSph) : Int := F.m_particles.getMaxParticles

/-- The record every field of which has its default value. -/
def Particle.blank : Particle :=
  ⟨btVector3.zero, btVector3.zero, btVector3.zero, btVector3.zero, btVector3.zero, 0, 0,
    INVALID_PARTICLE_INDEX, 0⟩

/-- Modelled from the spec: `FluidParticles::addParticle` is not among the sources.  The
spec: "if `count < maxParticles`, appends with given position, zeroed velocity/force, returns
new index; else returns `count` unchanged".  The fields the spec does not mention are given
their default values. -/
def FluidParticles.addParticle (P : FluidParticles) (position : btVector3) :
    Int × FluidParticles :=
  if P.size < P.m_maxParticles then
    (P.size, { P with slots := P.slots ++ [{ Particle.blank with m_pos := position }] })
  else (P.size, P)

/-- The member `addParticle` of the fluid: forwards to the particle store. -/
def FluidSph.addParticle (F : FluidSph) (position : btVector3) : Int × FluidSph :=
  ((F.m_particles.addParticle position).1,
    { F with m_particles := (F.m_particles.addParticle position).2 })

/-- The member `markParticleForRemoval`: appends to the pending-removal list. -/
def FluidSph.markParticleForRemoval (F : FluidSph) (index : Int) : FluidSph :=
  { F with m_removedFluidIndicies := F.m_removedFluidIndicies ++ [index] }

/-- The function `removeMarkedFluids`: flushes the pending-removal list. -/
def FluidSph.removeMarkedFluids (F : FluidSph) : FluidSph :=
  { F with
    m_particles := flushParticles F.m_particles F.m_removedFluidIndicies,
    m_removedFluidIndicies := [] }

/-- Update of the record at an `int` index of the live range; an index outside `[0, size)`
reaches no live slot. -/
def modifySlot (slots : List Particle) (index : Int) (f : Particle → Particle) :
    List Particle :=
  if 0 ≤ index then slots.modify f index.toNat else slots

/-- The member `setVelocity`: assigns `m_vel[index]` and `m_vel_eval[index]`. -/
def FluidSph.setVelocity (F : FluidSph) (index : Int) (velocity : btVector3) : FluidSph :=
  let slots := modifySlot F.m_particles.slots index
    (fun p => { p with m_vel := velocity, m_vel_eval := velocity })
  { F with m_particles := { F.m_particles with slots := slots } }

/-- The member `getPosition`, defined for an index of the live range. -/
def FluidSph.getPosition (F : FluidSph) (index : Int) : Option btVector3 :=
  (readSlot F.m_particles.slots index).map (fun p => p.m_pos)

/-- The member `getVelocity`, defined for an index of the live range. -/
def FluidSph.getVelocity (F : FluidSph) (index : Int) : Option btVector3 :=
  (readSlot F.m_particles.slots index).map (fun p => p.m_vel)

/-- The member `getEvalVelocity`, defined for an index of the live range. -/
def FluidSph.getEvalVelocity (F : FluidSph) (index : Int) : Option btVector3 :=
  (readSlot F.m_particles.slots index).map (fun p => p.m_vel_eval)

/-- The state handed to the insertion pass by `insertParticlesIntoGrid`: every live
next-index field reset, the grid cleared. -/
def FluidSph.insertionInput (F : FluidSph) : Grid × FluidParticles :=
  (F.m_grid.clear,
    { F.m_particles with
      slots := F.m_particles.slots.map
        (fun p => { p with m_nextFluidIndex := INVALID_PARTICLE_INDEX }) })

/-- The function `insertParticlesIntoGrid`: reset the next-index fields, clear the grid, run
the insertion pass. -/
def FluidSph.insertParticlesIntoGrid (F : FluidSph) : FluidSph :=
  { F with
    m_grid := (F.insertionInput.1.insertParticles F.insertionInput.2).1,
    m_particles := (F.insertionInput.1.insertParticles F.insertionInput.2).2 }

/-! ## Concrete states used as test inputs -/

/-- A particle at position `(k, 0, 0)` carrying the user tag `k`. -/
def exampleParticle (k : Nat) : Particle :=
  { Particle.blank with m_pos := ⟨k, 0, 0⟩, m_userPointer := k }

/-- A chain-layout grid over the volume `[0,0,0]-[8,8,8]` with cell size 2. -/
def exampleGrid : Grid := ⟨⟨0, 0, 0⟩, ⟨8, 8, 8⟩, 1, 2, true, []⟩

/-- A fluid holding the particles `exampleParticle 0, ..., exampleParticle (n - 1)`, with the
given capacity and pending-removal list. -/
def exampleFluid (n : Nat) (maxParticles : Int) (pending : List Int) : FluidSph :=
  ⟨⟨maxParticles, (List.range n).map exampleParticle⟩, pending, exampleGrid⟩

/-! ## The emitter -/

/-- The emitter's fields. -/
structure FluidEmitter where
  m_position : btVector3
  m_velocity : ℚ
  m_yaw : ℚ
  m_pitch : ℚ
  m_yawSpread : ℚ
  m_pitchSpread : ℚ
  m_useRandomIfAllParticlesAllocated : Bool

/-- One iteration `i` of the loop of `FluidEmitter::emit`.  `x` is the lattice width and
`dir i` the direction vector of the iteration, whose computation from `rand()`, `btCos` and
`btSin` is not modelled.  The position is the exact value of
`(spacing*(i/x), spacing*(i%x), 0) + m_position`; the program rounds it, so nothing is
concluded below about which positions are equal or distinct.  The second component of the
state records every call `setVelocity(index, dir)` as the pair of `index` and the particle
count at that moment; the indices do not depend on the positions. -/
def FluidEmitter.emitStep (E : FluidEmitter) (spacing : ℚ) (x : Int) (dir : Nat → btVector3)
    (st : FluidSph × List (Int × Int)) (i : Nat) : FluidSph × List (Int × Int) :=
  let position := btVector3.add
    ⟨spacing * (Int.tdiv i x : Int), spacing * (Int.tmod i x : Int), 0⟩ E.m_position
  let added := st.1.addParticle position
  (added.2.setVelocity added.1 (dir i), st.2 ++ [(added.1, added.2.numParticles)])

/-- The function `FluidEmitter::emit`: the final fluid and the record of the `setVelocity`
calls.  `x` stands for `(int)btSqrt((btScalar)numParticles)` and is embedded as the exact
integer square root; the floating-point square root and cast are not modelled, and `x` enters
the positions only, never the indices or the number of iterations. -/
def FluidEmitter.emit (E : FluidEmitter) (fluid : FluidSph) (numParticles : Int) (spacing : ℚ)
    (dir : Nat → btVector3) : FluidSph × List (Int × Int) :=
  let x : Int := Nat.sqrt numParticles.toNat
  (List.range numParticles.toNat).foldl (E.emitStep spacing x dir) (fluid, [])

/-! ## Metaball sampling -/

/-- A cell iterator of a grid query: first index and last index. -/
structure FluidGridIterator where
  m_firstIndex : Int
  m_lastIndex : Int
deriving DecidableEq

/-- Modelled from the spec: `FluidGridIterator::isIndexValid` is not among the sources.  The
spec: "either walk a linked chain following next-index pointers until INVALID, or iterate a
contiguous `[first, last)` index range". -/
def FluidGridIterator.isIndexValid (index lastIndex : Int) : Bool :=
  decide (index ≠ INVALID_PARTICLE_INDEX) && decide (index < lastIndex)

/-- Modelled from the spec: `FluidGridIterator::getNextIndex` is not among the sources: the
next-index field of the particle in a chain, the following index in a range.  `current` is
the record at `index`. -/
def FluidGridIterator.getNextIndex (index : Int) (isLinkedList : Bool) (current : Particle) :
    Int :=
  if isLinkedList then current.m_nextFluidIndex else index + 1

/-- The quotient `a / d` of a positive `a` by a non-negative `d`, with the IEEE result
`+infinity` for `d = 0`.  For `d` not zero the quotient is the exact rational.  The results
that use it are identities between what a loop accumulates and a sum of such quotients; none
concludes that a quotient is finite, or how two quotients compare, because in the program
that depends on rounding (a tiny non-zero distance can give the squared distance 0). -/
def scalarDiv (a d : ℚ) : WithTop ℚ := if d = 0 then ⊤ else ((a / d : ℚ) : WithTop ℚ)

/-- The squared distance `dx*dx + dy*dy + dz*dz` of the sample point from a position. -/
def distanceSq (x y z : ℚ) (position : btVector3) : ℚ :=
  (x - position.x) * (x - position.x) + (y - position.y) * (y - position.y)
    + (z - position.z) * (z - position.z)

/-- The constant `R2 = 1.8*1.8` of `getValue`. -/
def getValueR2 : ℚ := (18 / 10) * (18 / 10)

/-- The body of the inner loop of `getValue`: `if(dsq < R2) sum += R2 / dsq;`. -/
def getValueBody (x y z : ℚ) (position : btVector3) (sum : WithTop ℚ) : WithTop ℚ :=
  if distanceSq x y z position < getValueR2 then
    sum + scalarDiv getValueR2 (distanceSq x y z position)
  else sum

/-- The inner loop of `getValue` over one cell iterator, from index `n` with the running
`sum`; `none` when the loop has not ended after `fuel` iterations or reads a position outside
the live range. -/
def getValueCell (isLinkedList : Bool) (slots : List Particle) (x y z : ℚ) (lastIndex : Int) :
    Nat → Int → WithTop ℚ → Option (WithTop ℚ)
  | 0, n, sum => if FluidGridIterator.isIndexValid n lastIndex then none else some sum
  | fuel + 1, n, sum =>
    if FluidGridIterator.isIndexValid n lastIndex then
      match readSlot slots n with
      | none => none
      | some p =>
        getValueCell isLinkedList slots x y z lastIndex fuel
          (FluidGridIterator.getNextIndex n isLinkedList p) (getValueBody x y z p.m_pos sum)
    else some sum

/-- The function `getValue`.  `findCells` is the grid query, which is not among the sources:
it returns the `RESULTS_PER_GRID_SEARCH` cell iterators of a point and a radius. -/
def FluidSph.getValue (findCells : btVector3 → ℚ → List FluidGridIterator) (fuel : Nat)
    (F : FluidSph) (x y z : ℚ) : Option (WithTop ℚ) :=
  let isLinkedList := F.m_grid.m_isLinkedList
  let searchRadius := F.m_grid.getCellSize / 2
  let foundCells := findCells ⟨x, y, z⟩ searchRadius
  foundCells.foldlM
    (fun sum FI =>
      getValueCell isLinkedList F.m_particles.slots x y z FI.m_lastIndex fuel FI.m_firstIndex sum)
    0

/-- The positions read by the inner loop over one cell iterator, in order. -/
def cellPositions (isLinkedList : Bool) (slots : List Particle) (lastIndex : Int) :
    Nat → Int → Option (List btVector3)
  | 0, n => if FluidGridIterator.isIndexValid n lastIndex then none else some []
  | fuel + 1, n =>
    if FluidGridIterator.isIndexValid n lastIndex then
      match readSlot slots n with
      | none => none
      | some p =>
        (cellPositions isLinkedList slots lastIndex fuel
          (FluidGridIterator.getNextIndex n isLinkedList p)).map (fun ps => p.m_pos :: ps)
    else some []

/-- The positions of the particles found by the grid query of `getValue` at a sample point:
those read while traversing the returned cell iterators, in order, with repetitions. -/
def FluidSph.foundPositions (findCells : btVector3 → ℚ → List FluidGridIterator) (fuel : Nat)
    (F : FluidSph) (x y z : ℚ) : Option (List btVector3) :=
  (findCells ⟨x, y, z⟩ (F.m_grid.getCellSize / 2)).foldlM
    (fun acc FI =>
      (cellPositions F.m_grid.m_isLinkedList F.m_particles.slots FI.m_lastIndex fuel
        FI.m_firstIndex).map (fun ps => acc ++ ps))
    []

/-- The kernel term of one particle: `R2 / d2` when the squared distance `d2` is below
`cutoff2`, nothing otherwise. -/
def kernelTerm (cutoff2 : ℚ) (x y z : ℚ) (position : btVector3) : WithTop ℚ :=
  if distanceSq x y z position < cutoff2 then scalarDiv getValueR2 (distanceSq x y z position)
  else 0

/-- The sum of the kernel terms over a list of positions. -/
def kernelSum (cutoff2 : ℚ) (x y z : ℚ) (positions : List btVector3) : WithTop ℚ :=
  (positions.map (kernelTerm cutoff2 x y z)).sum

/-- An emitter at the origin with unit speed and no spread. -/
def exampleEmitter : FluidEmitter := ⟨⟨0, 0, 0⟩, 1, 0, 0, 0, 0, true⟩

/-- A direction for iteration `i`, standing for the value computed from the angles. -/
def exampleDir (i : Nat) : btVector3 := ⟨1, i, 0⟩

/-- Well-formedness of the cell iterators of a query for the traversal of `getValue`.  Chain
layout: every next-index field is `INVALID_PARTICLE_INDEX` or an index below its own (chains
built by prepending in index order descend), and every first index is
`INVALID_PARTICLE_INDEX` or in the live range.  Range layout: every first index is
`INVALID_PARTICLE_INDEX` or non-negative and every last index is at most the count. -/
def queryWellFormed (F : FluidSph) (cells : List FluidGridIterator) : Prop :=
  if F.m_grid.m_isLinkedList then
    (∀ i : Int, ∀ p, readSlot F.m_particles.slots i = some p →
      -1 ≤ p.m_nextFluidIndex ∧ p.m_nextFluidIndex < i) ∧
    ∀ FI ∈ cells, -1 ≤ FI.m_firstIndex ∧ FI.m_firstIndex < F.m_particles.size
  else
    ∀ FI ∈ cells, (FI.m_firstIndex = -1 ∨ 0 ≤ FI.m_firstIndex) ∧
      FI.m_lastIndex ≤ F.m_particles.size

/-- A grid query that returns the single iterator with first index 0 and last index 1. -/
def exampleFindCells : btVector3 → ℚ → List FluidGridIterator := fun _ _ => [⟨0, 1⟩]

/-- The position, velocities and forces of a particle. -/
def Particle.physicalFields (p : Particle) :
    btVector3 × btVector3 × btVector3 × btVector3 × btVector3 :=
  (p.m_pos, p.m_vel, p.m_vel_eval, p.m_accumulatedForce, p.m_sph_force)

/-- The record with its next-index field set to `INVALID_PARTICLE_INDEX`. -/
def Particle.resetNext (p : Particle) : Particle :=
  { p with m_nextFluidIndex := INVALID_PARTICLE_INDEX }

/-- A fluid of two particles in the same cell, carrying chain links and chain heads left by
an earlier step. -/
def staleFluid : FluidSph :=
  ⟨⟨4, [{ exampleParticle 0 with m_nextFluidIndex := 1 },
        { exampleParticle 1 with m_nextFluidIndex := 0 }]⟩, [],
    { exampleGrid with m_heads := [((0, 0, 0), 1), ((3, 3, 3), 0)] }⟩

/-! ## Reset, clear and capacity -/

/-- Modelled from the spec: `FluidParticles::resize` is not among the sources, and the spec
does not describe it.  It is called only as `resize(0)`, after which no particle is live; a
size below the count keeps the lowest indices, a size above it appends default records. -/
def FluidParticles.resize (P : FluidParticles) (n : Nat) : FluidParticles :=
  { P with slots := P.slots.take n ++ List.replicate (n - P.slots.length) Particle.blank }

/-- Modelled from the spec: `setMaxParticles` is declared in `btFluidSph.h` and defined
elsewhere.  The spec: "if `n < count`, truncates by removing the excess starting from the
highest indices"; the capacity becomes `n`.  The spec describes capacities `n >= 0` only:
a negative `n` is recorded as given, and the results on the invariant are stated for
`n >= 0`. -/
def FluidParticles.setMaxParticles (P : FluidParticles) (maxNumParticles : Int) :
    FluidParticles :=
  { m_maxParticles := maxNumParticles,
    slots := if maxNumParticles < P.size then P.slots.take maxNumParticles.toNat else P.slots }

/-- The member `setMaxParticles` of the fluid: forwards to the particle store. -/
def FluidSph.setMaxParticles (F : FluidSph) (maxNumParticles : Int) : FluidSph :=
  { F with m_particles := F.m_particles.setMaxParticles maxNumParticles }

/-- The function `clear`: empties the particle store and the pending-removal list and clears
the grid (the grid is taken to exist). -/
def FluidSph.clear (F : FluidSph) : FluidSph :=
  { m_particles := F.m_particles.resize 0,
    m_removedFluidIndicies := [],
    m_grid := F.m_grid.clear }

/-- The function `reset`: `clear()`, `resize(0)`, `setMaxParticles(maxNumParticles)`; the
default material parameters set at the end are not part of the state modelled here. -/
def FluidSph.reset (F : FluidSph) (maxNumParticles : Int) : FluidSph :=
  let cleared := F.clear
  { cleared with
    m_particles := (cleared.m_particles.resize 0).setMaxParticles maxNumParticles }

/-- The invariant `0 <= count <= maxParticles`. -/
def FluidSph.countInvariant (F : FluidSph) : Prop :=
  0 ≤ F.numParticles ∧ F.numParticles ≤ F.getMaxParticles

/-- The body of the inner loop of `getGradient`: for `0 < dsq < R2` the weight
`2*R2 / (dsq*dsq)` scales `(dx, dy, dz)`, which is added to `norm`. -/
def getGradientBody (R2 x y z : ℚ) (position : btVector3) (norm : btVector3) : btVector3 :=
  if 0 < distanceSq x y z position ∧ distanceSq x y z position < R2 then
    norm.add
      ⟨(x - position.x) * (2 * R2 / (distanceSq x y z position * distanceSq x y z position)),
       (y - position.y) * (2 * R2 / (distanceSq x y z position * distanceSq x y z position)),
       (z - position.z) * (2 * R2 / (distanceSq x y z position * distanceSq x y z position))⟩
  else norm

/-- The inner loop of `getGradient` over one cell iterator, from index `n` with the running
`norm`; `none` when the loop has not ended after `fuel` iterations or reads a position
outside the live range. -/
def getGradientCell (isLinkedList : Bool) (slots : List Particle) (R2 x y z : ℚ)
    (lastIndex : Int) : Nat → Int → btVector3 → Option btVector3
  | 0, n, norm => if FluidGridIterator.isIndexValid n lastIndex then none else some norm
  | fuel + 1, n, norm =>
    if FluidGridIterator.isIndexValid n lastIndex then
      match readSlot slots n with
      | none => none
      | some p =>
        getGradientCell isLinkedList slots R2 x y z lastIndex fuel
          (FluidGridIterator.getNextIndex n isLinkedList p) (getGradientBody R2 x y z p.m_pos norm)
    else some norm

/-- The vector `getGradient` has accumulated when it calls `normalize()`; the normalisation
itself is not modelled.  `findCells` is the grid query, as for `getValue`. -/
def FluidSph.getGradientSum (findCells : btVector3 → ℚ → List FluidGridIterator) (fuel : Nat)
    (F : FluidSph) (x y z : ℚ) : Option btVector3 :=
  let isLinkedList := F.m_grid.m_isLinkedList
  let searchRadius := F.m_grid.getCellSize / 2
  let R2 := searchRadius * searchRadius
  let foundCells := findCells ⟨x, y, z⟩ searchRadius
  foundCells.foldlM
    (fun norm FI =>
      getGradientCell isLinkedList F.m_particles.slots R2 x y z FI.m_lastIndex fuel
        FI.m_firstIndex norm)
    btVector3.zero

/-- The gradient term of one particle: `(s - p) * 2*R2 / d2^2` when `0 < d2 < R2`, the zero
vector otherwise. -/
def gradientTerm (R2 x y z : ℚ) (position : btVector3) : btVector3 :=
  if 0 < distanceSq x y z position ∧ distanceSq x y z position < R2 then
    ⟨(x - position.x) * 2 * R2 / distanceSq x y z position ^ 2,
     (y - position.y) * 2 * R2 / distanceSq x y z position ^ 2,
     (z - position.z) * 2 * R2 / distanceSq x y z position ^ 2⟩
  else btVector3.zero

/-- The component-wise sum of the gradient terms over a list of positions. -/
def gradientSum (R2 x y z : ℚ) (positions : List btVector3) : btVector3 :=
  ⟨(positions.map (fun p => (gradientTerm R2 x y z p).x)).sum,
   (positions.map (fun p => (gradientTerm R2 x y z p).y)).sum,
   (positions.map (fun p => (gradientTerm R2 x y z p).z)).sum⟩

/-! ## The grid query -/

/-- The integers `lo, lo + 1, ..., hi`. -/
def axisRange (lo hi : Int) : List Int :=
  (List.range (hi - lo + 1).toNat).map (fun (k : Nat) => lo + (k : Int))

/-- The cell coordinates between two corner coordinates, axis by axis. -/
def cellsInBox (lo hi : Int × Int × Int) : List (Int × Int × Int) :=
  (axisRange lo.1 hi.1).flatMap (fun cx =>
    (axisRange lo.2.1 hi.2.1).flatMap (fun cy =>
      (axisRange lo.2.2 hi.2.2).map (fun cz => (cx, cy, cz))))

/-- The cell coordinate of the corner of the query box of a point, `offset` being `-radius`
or `+radius` on every axis; the radius is in the units of the cell size. -/
def Grid.cornerCoord (G : Grid) (point : btVector3) (offset : ℚ) : Int × Int × Int :=
  (⌊((point.x - G.m_min.x) * G.m_simScale + offset) / G.m_cellSize⌋,
   ⌊((point.y - G.m_min.y) * G.m_simScale + offset) / G.m_cellSize⌋,
   ⌊((point.z - G.m_min.z) * G.m_simScale + offset) / G.m_cellSize⌋)

/-- Modelled from the spec: `Grid::findCells` is not among the sources.  The spec: "returns
up to a fixed small number of cell iterators (each an index range or chain head) covering all
cells that could contain a point within `radius` of `point`".  The cells are those of the
box around the point, at most `resultsPerGridSearch` of them (the constant
`RESULTS_PER_GRID_SEARCH`, a parameter here); each is returned as its chain head, with the
last index one above the head, which bounds every index of a descending chain. -/
def Grid.findCells (resultsPerGridSearch : Nat) (G : Grid) (point : btVector3) (radius : ℚ) :
    List FluidGridIterator :=
  ((cellsInBox (G.cornerCoord point (-radius)) (G.cornerCoord point radius)).take
      resultsPerGridSearch).map
    (fun c => ⟨G.head c, G.head c + 1⟩)

/-- The indices read by the inner loop of a traversal over one cell iterator, in order. -/
def cellIndices (isLinkedList : Bool) (slots : List Particle) (lastIndex : Int) :
    Nat → Int → Option (List Int)
  | 0, n => if FluidGridIterator.isIndexValid n lastIndex then none else some []
  | fuel + 1, n =>
    if FluidGridIterator.isIndexValid n lastIndex then
      match readSlot slots n with
      | none => none
      | some p =>
        (cellIndices isLinkedList slots lastIndex fuel
          (FluidGridIterator.getNextIndex n isLinkedList p)).map (fun ns => n :: ns)
    else some []

/-- The indices of the particles found by the grid query of `getValue` at a sample point:
those visited while traversing the returned cell iterators, in order. -/
def FluidSph.foundIndices (findCells : btVector3 → ℚ → List FluidGridIterator) (fuel : Nat)
    (F : FluidSph) (x y z : ℚ) : Option (List Int) :=
  (findCells ⟨x, y, z⟩ (F.m_grid.getCellSize / 2)).foldlM
    (fun acc FI =>
      (cellIndices F.m_grid.m_isLinkedList F.m_particles.slots FI.m_lastIndex fuel
        FI.m_firstIndex).map (fun ns => acc ++ ns))
    []

/-- Modelled from the spec: the constructor of `Grid` is not among the sources.  It records
the volume, the simulation scale and the cell size, with every chain empty; `Grid` is the
chain layout.  The fifth argument of the call in `initialize`, `1.0`, is not described by the
spec and is left out. -/
def Grid.create (volumeMin volumeMax : btVector3) (simScale simCellSize : ℚ) : Grid :=
  ⟨volumeMin, volumeMax, simScale, simCellSize, true, []⟩

/-- The function `initialize`: `reset`, then a new grid of cell size
`sph_smoothradius * 2`.  The local parameters it also stores are not part of the state
modelled here. -/
def FluidSph.initialize (F : FluidSph) (sph_smoothradius sph_simscale : ℚ)
    (maxNumParticles : Int) (volumeMin volumeMax : btVector3) : FluidSph :=
  { F.reset maxNumParticles with
    m_grid := Grid.create volumeMin volumeMax sph_simscale (sph_smoothradius * 2) }

/-- The fluid of the neighbour example: smoothing radius 1, hence cell size 2, over the
volume `[0,0,0]-[8,8,8]`, holding particles at `(1,1,1)` and `(3/2,3/2,3/2)`. -/
def neighbourFluid : FluidSph :=
  ((( FluidSph.initialize (exampleFluid 0 0 []) 1 1 4 ⟨0, 0, 0⟩ ⟨8, 8, 8⟩).addParticle
    ⟨1, 1, 1⟩).2.addParticle ⟨3 / 2, 3 / 2, 3 / 2⟩).2

/-- Index `i` is on the chain that starts at index `start`: it is `start` itself, a live
index, or it is on the chain that starts at the next-index field of `start`. -/
inductive InChain (slots : List Particle) : Int → Int → Prop
  | head (n : Int) (p : Particle) : readSlot slots n = some p → InChain slots n n
  | next (n i : Int) (p : Particle) :
      readSlot slots n = some p → InChain slots p.m_nextFluidIndex i → InChain slots n i

/-- The state of the insertion pass once the indices below `k` are inserted, starting from
the grid `G0` and the records `slots0`: the grid parameters and the positions are those of
the start, every next-index field is `INVALID_PARTICLE_INDEX` or a lower index, every chain
head is `INVALID_PARTICLE_INDEX` or an index below `k`, and every index below `k` is on the
chain of the cell of its position. -/
def insertionInvariant (G0 : Grid) (slots0 : List Particle) (k : Nat)
    (st : Grid × List Particle) : Prop :=
  st.2.length = slots0.length ∧
  (st.1.m_min = G0.m_min ∧ st.1.m_simScale = G0.m_simScale ∧ st.1.m_cellSize = G0.m_cellSize ∧
    st.1.m_isLinkedList = G0.m_isLinkedList) ∧
  (∀ i : Nat, (st.2.get? i).map (fun p => p.m_pos) = (slots0.get? i).map (fun p => p.m_pos)) ∧
  (∀ (m : Int) (p : Particle), readSlot st.2 m = some p →
    -1 ≤ p.m_nextFluidIndex ∧ p.m_nextFluidIndex < m) ∧
  (∀ c, -1 ≤ st.1.head c ∧ st.1.head c < (k : Int)) ∧
  (∀ i : Nat, i < k → ∀ p, st.2.get? i = some p →
    InChain st.2 (st.1.head (st.1.cellCoord p.m_pos)) (i : Int))

/-! ## The duplicate-removal loop and the sort -/

theorem dedupAdjacent_ne_nil (x : Int) (l : List Int) : dedupAdjacent (x :: l) ≠ [] := by
  induction l generalizing x with
  | nil => simp [dedupAdjacent]
  | cons y rest ih =>
    simp only [dedupAdjacent]
    split
    · exact ih y
    · simp

theorem dedupAdjacent_concat (l : List Int) (x : Int) :
    dedupAdjacent (l ++ [x]) =
      if l.getLast? = some x then dedupAdjacent l else dedupAdjacent l ++ [x] := by
  induction l with
  | nil => simp [dedupAdjacent]
  | cons a rest ih =>
    cases rest with
    | nil =>
      simp only [List.nil_append, List.cons_append, dedupAdjacent, List.getLast?_singleton,
        Option.some.injEq]
      by_cases h : a = x <;> simp [h, dedupAdjacent]
    | cons b rest2 =>
      have hl : (a :: b :: rest2).getLast? = (b :: rest2).getLast? := by
        simp [List.getLast?_cons_cons]
      rw [hl]
      simp only [List.cons_append, dedupAdjacent, List.append_eq] at ih ⊢
      by_cases hab : a = b
      · simp only [hab, if_true]
        exact ih
      · simp only [hab, if_false]
        rw [ih]
        split <;> simp

theorem removeDuplicates_fold (orig : List Int) (k : Nat) :
    ∀ (i : Nat) (a : List Int) (u : Nat), 1 ≤ i → i + k ≤ orig.length →
      a.length = orig.length → u ≤ i →
      a.take u = dedupAdjacent (orig.take i) →
      (∀ j, i - 1 ≤ j → a.getD j 0 = orig.getD j 0) →
      ((List.range' i k).foldl removeDuplicatesStep (a, u)).1.length = orig.length ∧
      ((List.range' i k).foldl removeDuplicatesStep (a, u)).2 ≤ i + k ∧
      ((List.range' i k).foldl removeDuplicatesStep (a, u)).1.take
          ((List.range' i k).foldl removeDuplicatesStep (a, u)).2
        = dedupAdjacent (orig.take (i + k)) := by
  induction k with
  | zero =>
    intro i a u _ _ hlen hu htake _
    simpa using ⟨hlen, hu, htake⟩
  | succ k ih =>
    intro i a u hi hik hlen hu htake hframe
    rw [List.range'_succ, List.foldl_cons]
    have hilt : i < orig.length := by omega
    have hx : a.getD i 0 = orig.getD i 0 := hframe i (by omega)
    have hy : a.getD (i - 1) 0 = orig.getD (i - 1) 0 := hframe (i - 1) (by omega)
    have hoi : orig[i]? = some (orig.getD i 0) := by
      rw [List.getD_eq_getElem?_getD, List.getElem?_eq_getElem hilt]; rfl
    have htk : orig.take (i + 1) = orig.take i ++ [orig.getD i 0] := by
      rw [List.take_succ, hoi]; rfl
    have hlast : (orig.take i).getLast? = some (orig.getD (i - 1) 0) := by
      rw [List.getLast?_take]
      have : i ≠ 0 := by omega
      rw [if_neg this, List.getD_eq_getElem?_getD, List.getElem?_eq_getElem (by omega)]
      rfl
    have hgoal : ∀ a' u', a'.length = orig.length → u' ≤ i + 1 →
        a'.take u' = dedupAdjacent (orig.take (i + 1)) →
        (∀ j, i ≤ j → a'.getD j 0 = orig.getD j 0) →
        ((List.range' (i + 1) k).foldl removeDuplicatesStep (a', u')).1.length = orig.length ∧
        ((List.range' (i + 1) k).foldl removeDuplicatesStep (a', u')).2 ≤ i + (k + 1) ∧
        ((List.range' (i + 1) k).foldl removeDuplicatesStep (a', u')).1.take
            ((List.range' (i + 1) k).foldl removeDuplicatesStep (a', u')).2
          = dedupAdjacent (orig.take (i + (k + 1))) := by
      intro a' u' h1 h2 h3 h4
      have := ih (i + 1) a' u' (by omega) (by omega) h1 h2 h3 (by simpa using h4)
      simpa [Nat.add_assoc, Nat.add_comm 1 k] using this
    unfold removeDuplicatesStep
    simp only [hx, hy]
    by_cases hne : orig.getD i 0 = orig.getD (i - 1) 0
    · rw [if_neg (by simpa using hne)]
      apply hgoal a u hlen (by omega)
      · rw [htk, dedupAdjacent_concat, hlast, if_pos (by rw [hne]), htake]
      · intro j hj; exact hframe j (by omega)
    · rw [if_pos hne]
      apply hgoal _ _ (by simpa using hlen) (by omega)
      · rw [htk, dedupAdjacent_concat, hlast, if_neg (fun h => hne (Option.some.inj h).symm),
          ← htake]
        rw [List.take_succ, List.set_take]
        have hul : u < a.length := by omega
        rw [List.getElem?_set_self hul]
        simp only [Option.toList_some]
        congr 1
        rw [List.set_eq_of_length_le (by simp)]
      · intro j hj
        rw [List.getD_eq_getElem?_getD, List.getElem?_set]
        by_cases huj : u = j
        · have : j = i := by omega
          subst this
          subst huj
          simp [hilt, hlen]
        · rw [if_neg huj, ← List.getD_eq_getElem?_getD]
          exact hframe j (by omega)

/-- The in-place loop leaves, in the first `uniqueSize` entries, the out-of-place removal of
adjacent duplicates of the array it was given. -/
theorem removeDuplicates_take (a : List Int) :
    (removeDuplicates a).1.take (removeDuplicates a).2 = dedupAdjacent a ∧
    (removeDuplicates a).2 ≤ a.length ∧ (removeDuplicates a).1.length = a.length := by
  unfold removeDuplicates
  cases a with
  | nil => simp [dedupAdjacent]
  | cons x rest =>
    simp only [List.length_cons, ne_eq, Nat.add_one_ne_zero, not_false_eq_true, if_true,
      Nat.add_sub_cancel]
    have := removeDuplicates_fold (x :: rest) rest.length 1 (x :: rest) 1 (by omega)
      (by simp; omega) rfl (by omega) (by simp [dedupAdjacent]) (fun _ _ => rfl)
    obtain ⟨h1, h2, h3⟩ := this
    refine ⟨?_, ?_, ?_⟩
    · rw [h3]
      congr 1
      apply List.take_of_length_le
      simp; omega
    · omega
    · simpa using h1

theorem mem_dedupAdjacent (v : Int) (l : List Int) : v ∈ dedupAdjacent l ↔ v ∈ l := by
  induction l using dedupAdjacent.induct with
  | case1 => simp [dedupAdjacent]
  | case2 x => simp [dedupAdjacent]
  | case3 x rest ih =>
    simp only [dedupAdjacent, if_true]
    rw [ih]; simp
  | case4 x y rest h ih =>
    simp only [dedupAdjacent, h, if_false, List.mem_cons] at ih ⊢
    rw [ih]

theorem sorted_dedupAdjacent (l : List Int) (h : l.Sorted (· ≥ ·)) :
    (dedupAdjacent l).Sorted (· > ·) := by
  induction l using dedupAdjacent.induct with
  | case1 => simp [dedupAdjacent]
  | case2 x => simp [dedupAdjacent]
  | case3 x rest ih =>
    simp only [dedupAdjacent, if_true]
    exact ih (List.Sorted.of_cons h)
  | case4 x y rest hxy ih =>
    simp only [dedupAdjacent, hxy, if_false]
    have hs := List.sorted_cons.1 h
    refine List.sorted_cons.2 ⟨?_, ih hs.2⟩
    intro b hb
    rw [mem_dedupAdjacent] at hb
    have hy : x ≥ y := hs.1 y (by simp)
    have hyb : y ≥ b := by
      rcases List.mem_cons.1 hb with rfl | hb'
      · exact le_refl _
      · exact (List.sorted_cons.1 hs.2).1 b hb'
    show x > b
    omega

theorem heapSort_eq (l : List Int) : heapSort l = l.insertionSort (· ≥ ·) := by
  unfold heapSort
  simp only [DescendingSortPredicate, Bool.not_eq_true', decide_eq_false_iff_not, not_lt,
    ge_iff_le]

theorem sorted_heapSort (l : List Int) : (heapSort l).Sorted (· ≥ ·) := by
  rw [heapSort_eq]
  exact List.sorted_insertionSort (· ≥ ·) l

theorem mem_heapSort (v : Int) (l : List Int) : v ∈ heapSort l ↔ v ∈ l := by
  rw [heapSort_eq]
  exact (List.perm_insertionSort (· ≥ ·) l).mem_iff

theorem dropLast_concat_perm {α : Type} (a b : α) (t : List α) (hb : t.getLast? = some b) :
    (b :: t.dropLast ++ [a]).Perm (a :: t) := by
  have ht : t = t.dropLast ++ [b] := by
    have hne : t ≠ [] := by intro h; simp [h] at hb
    have := List.dropLast_append_getLast hne
    rw [List.getLast?_eq_getLast _ hne] at hb
    rw [Option.some.inj hb] at this
    exact this.symm
  have h1 : (b :: t.dropLast ++ [a]).Perm (a :: (t.dropLast ++ [b])) := by
    have : (b :: t.dropLast ++ [a]).Perm (a :: b :: t.dropLast) := by
      simpa using (List.perm_append_comm : ((b :: t.dropLast) ++ [a]).Perm ([a] ++ (b :: t.dropLast)))
    refine this.trans (List.Perm.cons a ?_)
    simpa using (List.perm_append_comm : ([b] ++ t.dropLast).Perm (t.dropLast ++ [b]))
  rw [← ht] at h1
  exact h1

theorem swapRemove_perm {α : Type} (l : List α) :
    ∀ (d : Nat) (hd : d < l.length) (last : α), l.getLast? = some last →
      ((if d ≠ l.length - 1 then l.set d last else l).dropLast ++ [l.get ⟨d, hd⟩]).Perm l := by
  induction l with
  | nil => intro d hd; simp at hd
  | cons a t ih =>
    intro d hd last hlast
    cases t with
    | nil =>
      have : d = 0 := by simpa using hd
      subst this
      simp
    | cons b t' =>
      have hlast' : (b :: t').getLast? = some last := by
        simpa [List.getLast?_cons_cons] using hlast
      cases d with
      | zero =>
        simp only [List.length_cons, Nat.add_sub_cancel, ne_eq, List.set_cons_zero, List.get_eq_getElem,
          List.getElem_cons_zero]
        rw [if_pos (by omega)]
        simpa using dropLast_concat_perm a last (b :: t') hlast'
      | succ d' =>
        have hd' : d' < (b :: t').length := by simpa using hd
        have := ih d' hd' last hlast'
        simp only [List.length_cons, Nat.add_sub_cancel, ne_eq, List.set_cons_succ,
          List.get_eq_getElem, List.getElem_cons_succ] at this ⊢
        by_cases hc : d' = t'.length
        · simp only [hc, not_true_eq_false, if_false, List.dropLast_cons₂, List.cons_append] at this ⊢
          exact List.Perm.cons a this
        · have h2 : d' + 1 ≠ t'.length + 1 := by omega
          simp only [hc, not_false_eq_true, if_true, h2] at this ⊢
          cases d' with
          | zero => simpa using List.Perm.cons a this
          | succ d'' => simpa using List.Perm.cons a this

theorem readSlot_last (l : List Particle) (hl : l ≠ []) :
    readSlot l ((l.length : Int) - 1) = l.getLast? := by
  have hpos : 0 < l.length := List.length_pos.2 hl
  unfold readSlot
  rw [if_pos (by omega)]
  have : ((l.length : Int) - 1).toNat = l.length - 1 := by omega
  rw [this, List.getLast?_eq_getElem?]
  simp

theorem removeParticle_slots (P : FluidParticles) (v : Int) (h0 : 0 ≤ v) (hlt : v < P.size) :
    ∃ last, P.slots.getLast? = some last ∧
      (P.removeParticle v).slots =
        (if v.toNat ≠ P.slots.length - 1 then P.slots.set v.toNat last else P.slots).dropLast ∧
      (P.removeParticle v).m_maxParticles = P.m_maxParticles := by
  unfold FluidParticles.size at hlt
  have hne : P.slots ≠ [] := by
    intro h; rw [h] at hlt; simp at hlt; omega
  have hpos : 0 < P.slots.length := List.length_pos.2 hne
  obtain ⟨last, hlast⟩ : ∃ last, P.slots.getLast? = some last := by
    rw [List.getLast?_eq_getLast _ hne]; exact ⟨_, rfl⟩
  refine ⟨last, hlast, ?_⟩
  unfold FluidParticles.removeParticle
  simp only [FluidParticles.size]
  rw [readSlot_last _ hne, hlast]
  simp only [writeSlot, if_pos h0]
  have hiff : (v ≠ (P.slots.length : Int) - 1) ↔ (v.toNat ≠ P.slots.length - 1) := by omega
  by_cases hc : v = (P.slots.length : Int) - 1
  · have hc' : ¬ (v.toNat ≠ P.slots.length - 1) := fun h => (hiff.2 h) hc
    simp [hc, hc']
  · have hc' : v.toNat ≠ P.slots.length - 1 := hiff.1 hc
    simp [hc, hc']

theorem removeParticle_inRange (P : FluidParticles) (v : Int) (h0 : 0 ≤ v) (hlt : v < P.size) :
    ∃ p, readSlot P.slots v = some p ∧
      (P.removeParticle v).size = P.size - 1 ∧
      (P.removeParticle v).m_maxParticles = P.m_maxParticles ∧
      (∀ w : Int, w < v → readSlot (P.removeParticle v).slots w = readSlot P.slots w) ∧
      ((P.removeParticle v).slots ++ [p]).Perm P.slots := by
  obtain ⟨last, hlast, hslots, hmax⟩ := removeParticle_slots P v h0 hlt
  unfold FluidParticles.size at hlt ⊢
  have hd : v.toNat < P.slots.length := by omega
  have hlen : (P.removeParticle v).slots.length = P.slots.length - 1 := by
    rw [hslots]; split <;> simp
  refine ⟨P.slots.get ⟨v.toNat, hd⟩, ?_, ?_, hmax, ?_, ?_⟩
  · unfold readSlot; rw [if_pos h0]; simp [List.getElem?_eq_getElem hd]
  · rw [hlen]; omega
  · intro w hw
    unfold readSlot
    by_cases hw0 : 0 ≤ w
    · rw [if_pos hw0, if_pos hw0, hslots]
      have hj : w.toNat < v.toNat := by omega
      have hjl : w.toNat < P.slots.length - 1 := by omega
      simp only [List.get?_eq_getElem?]
      rw [List.dropLast_eq_take]
      split
      · rw [List.getElem?_take_of_lt (by simpa using hjl), List.getElem?_set,
          if_neg (by omega)]
      · rw [List.getElem?_take_of_lt hjl]
    · rw [if_neg hw0, if_neg hw0]
  · rw [hslots]
    exact swapRemove_perm P.slots v.toNat hd last hlast

theorem removeLoop_eq_foldl (P : FluidParticles) (a : List Int) (u : Nat) :
    removeLoop P a u = (passedIndices a u).foldl FluidParticles.removeParticle P := by
  unfold removeLoop passedIndices
  rw [List.foldl_map]

theorem passedIndices_eq_take (a : List Int) (u : Nat) (hu : u ≤ a.length) :
    passedIndices a u = a.take u := by
  unfold passedIndices
  apply List.ext_getElem
  · simp [hu]
  · intro n h1 h2
    simp at h1 h2
    simp [List.getD_eq_getElem?_getD, List.getElem?_eq_getElem (show n < a.length by omega)]

theorem passedIndices_flush (pending : List Int) :
    passedIndices (removeDuplicates (heapSort pending)).1 (removeDuplicates (heapSort pending)).2
      = dedupAdjacent (heapSort pending) := by
  obtain ⟨h1, h2, h3⟩ := removeDuplicates_take (heapSort pending)
  rw [passedIndices_eq_take _ _ (by omega), h1]

theorem flushParticles_eq_foldl (P : FluidParticles) (pending : List Int) :
    flushParticles P pending =
      (dedupAdjacent (heapSort pending)).foldl FluidParticles.removeParticle P := by
  unfold flushParticles
  simp only
  rw [removeLoop_eq_foldl, passedIndices_flush]

theorem removeAll_spec (is : List Int) :
    ∀ P : FluidParticles, is.Sorted (· > ·) → (∀ v ∈ is, 0 ≤ v ∧ v < P.size) →
      (is.foldl FluidParticles.removeParticle P).size = P.size - is.length ∧
      (is.foldl FluidParticles.removeParticle P).m_maxParticles = P.m_maxParticles ∧
      ((is.foldl FluidParticles.removeParticle P).slots ++
        is.filterMap (readSlot P.slots)).Perm P.slots := by
  induction is with
  | nil => intro P _ _; simp
  | cons v rest ih =>
    intro P hs hr
    have hsc := List.sorted_cons.1 hs
    obtain ⟨hv0, hvlt⟩ := hr v (by simp)
    obtain ⟨p, hp, hsize, hmax, hframe, hperm⟩ := removeParticle_inRange P v hv0 hvlt
    have hr1 : ∀ w ∈ rest, 0 ≤ w ∧ w < (P.removeParticle v).size := by
      intro w hw
      have h1 := hr w (by simp [hw])
      have h2 : v > w := hsc.1 w hw
      rw [hsize]
      exact ⟨h1.1, by omega⟩
    obtain ⟨i1, i2, i3⟩ := ih (P.removeParticle v) hsc.2 hr1
    rw [List.foldl_cons]
    refine ⟨?_, ?_, ?_⟩
    · rw [i1, hsize]; simp; omega
    · rw [i2, hmax]
    · have hcongr : rest.filterMap (readSlot (P.removeParticle v).slots)
          = rest.filterMap (readSlot P.slots) := by
        apply List.filterMap_congr
        intro w hw
        exact hframe w (hsc.1 w hw)
      rw [hcongr] at i3
      rw [List.filterMap_cons, hp]
      have h1 : (p :: ((List.foldl FluidParticles.removeParticle (P.removeParticle v) rest).slots
          ++ rest.filterMap (readSlot P.slots))).Perm ((P.removeParticle v).slots ++ [p]) :=
        (List.Perm.cons p i3).trans (by simpa using
          (List.perm_append_comm : ([p] ++ (P.removeParticle v).slots).Perm _))
      exact (List.perm_middle.trans h1).trans hperm

theorem removalCalls_fst (is : List Int) :
    ∀ P : FluidParticles, (removalCalls P is).map Prod.fst = is := by
  induction is with
  | nil => intro P; rfl
  | cons v rest ih => intro P; simp [removalCalls, ih]

theorem removalCalls_spec (is : List Int) :
    ∀ P : FluidParticles, is.Sorted (· > ·) → (∀ v ∈ is, 0 ≤ v ∧ v < P.size) →
      ∀ c ∈ removalCalls P is,
        0 ≤ c.1 ∧ c.1 < c.2.size ∧ readSlot c.2.slots c.1 = readSlot P.slots c.1 := by
  induction is with
  | nil => intro P _ _ c hc; simp [removalCalls] at hc
  | cons v rest ih =>
    intro P hs hr c hc
    have hsc := List.sorted_cons.1 hs
    obtain ⟨hv0, hvlt⟩ := hr v (by simp)
    obtain ⟨p, hp, hsize, hmax, hframe, hperm⟩ := removeParticle_inRange P v hv0 hvlt
    simp only [removalCalls, List.mem_cons] at hc
    rcases hc with rfl | hc
    · exact ⟨hv0, hvlt, rfl⟩
    · have hr1 : ∀ w ∈ rest, 0 ≤ w ∧ w < (P.removeParticle v).size := by
        intro w hw
        have h1 := hr w (by simp [hw])
        have h2 : v > w := hsc.1 w hw
        rw [hsize]
        exact ⟨h1.1, by omega⟩
      obtain ⟨c1, c2, c3⟩ := ih (P.removeParticle v) hsc.2 hr1 c hc
      have hmem : c.1 ∈ rest := by
        have := List.mem_map_of_mem Prod.fst hc
        rwa [removalCalls_fst] at this
      exact ⟨c1, c2, c3.trans (hframe c.1 (hsc.1 c.1 hmem))⟩

theorem flushIndices_eq (pending : List Int) :
    flushIndices pending = dedupAdjacent (heapSort pending) :=
  passedIndices_flush pending

theorem flushIndices_sorted (pending : List Int) : (flushIndices pending).Sorted (· > ·) := by
  rw [flushIndices_eq]
  exact sorted_dedupAdjacent _ (sorted_heapSort pending)

theorem mem_flushIndices (v : Int) (pending : List Int) :
    v ∈ flushIndices pending ↔ v ∈ pending := by
  rw [flushIndices_eq, mem_dedupAdjacent, mem_heapSort]

theorem flushIndices_nodup (pending : List Int) : (flushIndices pending).Nodup :=
  (flushIndices_sorted pending).imp (fun h => ne_of_gt h)

theorem flushIndices_perm_dedup (pending : List Int) :
    (flushIndices pending).Perm pending.dedup :=
  (List.perm_ext_iff_of_nodup (flushIndices_nodup pending) (List.nodup_dedup pending)).2
    (fun v => by rw [mem_flushIndices, List.mem_dedup])

theorem flushIndices_congr (l₁ l₂ : List Int) (h : ∀ v, v ∈ l₁ ↔ v ∈ l₂) :
    flushIndices l₁ = flushIndices l₂ := by
  have hp : (flushIndices l₁).Perm (flushIndices l₂) :=
    (List.perm_ext_iff_of_nodup (flushIndices_nodup l₁) (flushIndices_nodup l₂)).2
      (fun v => by rw [mem_flushIndices, mem_flushIndices, h])
  exact List.eq_of_perm_of_sorted hp (flushIndices_sorted l₁) (flushIndices_sorted l₂)

theorem flushParticles_eq (P : FluidParticles) (pending : List Int) :
    flushParticles P pending =
      (flushIndices pending).foldl FluidParticles.removeParticle P := by
  rw [flushParticles_eq_foldl, flushIndices_eq]

theorem distinctMarkedBelow_in_range (n : Int) (pending : List Int)
    (h : ∀ v ∈ pending, 0 ≤ v ∧ v < n) :
    distinctMarkedBelow n pending = (flushIndices pending).length := by
  unfold distinctMarkedBelow
  rw [(flushIndices_perm_dedup pending).length_eq, List.filter_eq_self.2]
  intro v hv
  simpa using h v (List.mem_dedup.1 hv)

/-- C1 (as stated, refuted): with three particles and the single mark 5, which is not below
the count, the flush still calls `removeParticle` and the count drops to 2, while the claimed
count is 3 - 0 = 3. -/
theorem removeMarkedFluids_count_mark_not_below :
    (exampleFluid 3 4 [5]).removeMarkedFluids.numParticles = 2 ∧
    (exampleFluid 3 4 [5]).removeMarkedFluids.numParticles ≠
      (exampleFluid 3 4 [5]).numParticles -
        distinctMarkedBelow (exampleFluid 3 4 [5]).numParticles
          (exampleFluid 3 4 [5]).m_removedFluidIndicies := by
  decide

/-- C1 (amended): when every pending value lies in `[0, n)`, the particle count after
`removeMarkedFluids` is `n` minus the number of distinct pending values. -/
theorem removeMarkedFluids_count (F : FluidSph)
    (h : ∀ v ∈ F.m_removedFluidIndicies, 0 ≤ v ∧ v < F.numParticles) :
    F.removeMarkedFluids.numParticles =
      F.numParticles - distinctMarkedBelow F.numParticles F.m_removedFluidIndicies := by
  have hd := distinctMarkedBelow_in_range _ _ h
  unfold FluidSph.removeMarkedFluids FluidSph.numParticles at *
  simp only
  rw [flushParticles_eq, hd]
  exact (removeAll_spec _ F.m_particles (flushIndices_sorted _)
    (fun v hv => h v ((mem_flushIndices _ _).1 hv))).1

/-- Witness of `removeMarkedFluids_count`: four particles, marks 1, 3, 3. -/
theorem removeMarkedFluids_count_witness :
    (exampleFluid 4 4 [1, 3, 3]).removeMarkedFluids.numParticles = 2 ∧
    (exampleFluid 4 4 [1, 3, 3]).removeMarkedFluids.numParticles =
      (exampleFluid 4 4 [1, 3, 3]).numParticles -
        distinctMarkedBelow (exampleFluid 4 4 [1, 3, 3]).numParticles
          (exampleFluid 4 4 [1, 3, 3]).m_removedFluidIndicies :=
  ⟨by decide, removeMarkedFluids_count (exampleFluid 4 4 [1, 3, 3]) (by decide)⟩

theorem filterMap_get?_range (l : List Particle) :
    (List.range l.length).filterMap (fun i => l.get? i) = l := by
  induction l using List.reverseRecOn with
  | nil => rfl
  | append_singleton l a ih =>
    rw [List.length_append, List.length_singleton, List.range_succ, List.filterMap_append]
    have h1 : (List.range l.length).filterMap (fun i => (l ++ [a]).get? i) =
        (List.range l.length).filterMap (fun i => l.get? i) := by
      apply List.filterMap_congr
      intro i hi
      have : i < l.length := List.mem_range.1 hi
      simp [List.getElem?_append_left this]
    rw [h1, ih]
    simp

theorem marked_perm (slots : List Particle) (pending : List Int)
    (h : ∀ v ∈ pending, 0 ≤ v ∧ v < (slots.length : Int)) :
    ((flushIndices pending).filterMap (readSlot slots)).Perm
      (((List.range slots.length).filter (fun i => decide (Int.ofNat i ∈ pending))).filterMap
        (fun i => slots.get? i)) := by
  have hnd : (((List.range slots.length).filter
      (fun i => decide (Int.ofNat i ∈ pending))).map Int.ofNat).Nodup :=
    ((List.nodup_range _).filter _).map (fun a b hab => Int.ofNat.inj hab)
  have hperm : (flushIndices pending).Perm
      (((List.range slots.length).filter
        (fun i => decide (Int.ofNat i ∈ pending))).map Int.ofNat) := by
    refine (List.perm_ext_iff_of_nodup (flushIndices_nodup pending) hnd).2 (fun v => ?_)
    rw [mem_flushIndices]
    constructor
    · intro hv
      obtain ⟨h0, h1⟩ := h v hv
      refine List.mem_map.2 ⟨v.toNat, ?_, ?_⟩
      · rw [List.mem_filter, List.mem_range]
        refine ⟨by omega, ?_⟩
        have : Int.ofNat v.toNat = v := Int.toNat_of_nonneg h0
        rw [this]
        exact decide_eq_true hv
      · exact Int.toNat_of_nonneg h0
    · intro hv
      obtain ⟨i, hi, rfl⟩ := List.mem_map.1 hv
      simpa using (List.mem_filter.1 hi).2
  refine (hperm.filterMap _).trans ?_
  rw [List.filterMap_map]
  apply List.Perm.of_eq
  apply List.filterMap_congr
  intro i _
  simp [readSlot]

theorem flushParticles_perm (P : FluidParticles) (pending : List Int)
    (h : ∀ v ∈ pending, 0 ≤ v ∧ v < P.size) :
    (flushParticles P pending).slots.Perm (unmarkedRecords P.slots pending) := by
  have hspec := (removeAll_spec _ P (flushIndices_sorted pending)
    (fun v hv => h v ((mem_flushIndices _ _).1 hv))).2.2
  rw [← flushParticles_eq] at hspec
  have hsplit := (List.filter_append_perm (fun i => decide (Int.ofNat i ∈ pending))
    (List.range P.slots.length)).filterMap (fun i => P.slots.get? i)
  rw [filterMap_get?_range, List.filterMap_append] at hsplit
  have hm := marked_perm P.slots pending h
  have e : (fun i : Nat => !decide (Int.ofNat i ∈ pending)) =
      (fun i : Nat => decide (Int.ofNat i ∉ pending)) := by
    funext i; simp
  rw [e] at hsplit
  have h3 := hspec.trans (hsplit.symm.trans (List.Perm.append_right _ hm.symm))
  exact (List.perm_append_left_iff _).1 (List.perm_append_comm.trans h3)

/-- C2: when every pending value lies in `[0, n)`, the multiset of particle records that
survive `removeMarkedFluids` is the multiset of the original records at exactly the indices
that were not marked. -/
theorem removeMarkedFluids_survivors (F : FluidSph)
    (h : ∀ v ∈ F.m_removedFluidIndicies, 0 ≤ v ∧ v < F.numParticles) :
    (F.removeMarkedFluids.m_particles.slots : Multiset Particle) =
      (unmarkedRecords F.m_particles.slots F.m_removedFluidIndicies : Multiset Particle) :=
  Multiset.coe_eq_coe.2 (flushParticles_perm F.m_particles F.m_removedFluidIndicies h)

/-- Witness of `removeMarkedFluids_survivors`: four particles, marks 1, 3, 3; the count
becomes 2 and the survivors are the original particles 0 and 2. -/
theorem removeMarkedFluids_survivors_witness :
    (exampleFluid 4 4 [1, 3, 3]).removeMarkedFluids.numParticles = 2 ∧
    unmarkedRecords (exampleFluid 4 4 [1, 3, 3]).m_particles.slots [1, 3, 3] =
      [exampleParticle 0, exampleParticle 2] ∧
    ((exampleFluid 4 4 [1, 3, 3]).removeMarkedFluids.m_particles.slots : Multiset Particle) =
      (unmarkedRecords (exampleFluid 4 4 [1, 3, 3]).m_particles.slots
        (exampleFluid 4 4 [1, 3, 3]).m_removedFluidIndicies : Multiset Particle) :=
  ⟨by decide, by decide, removeMarkedFluids_survivors (exampleFluid 4 4 [1, 3, 3]) (by decide)⟩

theorem flushIndices_replicate (v : Int) (k : Nat) (hk : 1 ≤ k) :
    flushIndices (List.replicate k v) = [v] := by
  have h1 : flushIndices (List.replicate k v) = flushIndices [v] := by
    apply flushIndices_congr
    intro w
    have hk0 : k ≠ 0 := by omega
    simp [List.mem_replicate, hk0]
  rw [h1]
  rfl

/-- C3: two pending-removal lists with the same set of values, in any order and with any
multiplicities, are flushed to the same fluid state.  The flushed store is the result of the
calls `removeParticle(i)` for the indices `flushIndices`, in which every marked value occurs
exactly once: an index marked `k >= 1` times is removed by a single `removeParticle`, and
with all marks in range the count drops by the number of distinct marks. -/
theorem removeMarkedFluids_duplicates_ignored (F : FluidSph) (l₁ l₂ : List Int)
    (h : ∀ v, v ∈ l₁ ↔ v ∈ l₂) :
    ({ F with m_removedFluidIndicies := l₁ } : FluidSph).removeMarkedFluids =
      ({ F with m_removedFluidIndicies := l₂ } : FluidSph).removeMarkedFluids ∧
    ({ F with m_removedFluidIndicies := l₁ } : FluidSph).removeMarkedFluids.m_particles =
      (flushIndices l₁).foldl FluidParticles.removeParticle F.m_particles ∧
    (∀ v ∈ l₁, (flushIndices l₁).count v = 1 ∧ (flushIndices l₂).count v = 1) ∧
    (∀ v, v ∈ flushIndices l₁ ↔ v ∈ l₁) ∧
    (∀ (v : Int) (k : Nat), 1 ≤ k →
      ({ F with m_removedFluidIndicies := List.replicate k v } :
          FluidSph).removeMarkedFluids.m_particles
        = F.m_particles.removeParticle v) ∧
    (∀ (v : Int) (k : Nat), 1 ≤ k → 0 ≤ v → v < F.numParticles →
      ({ F with m_removedFluidIndicies := List.replicate k v } :
          FluidSph).removeMarkedFluids.numParticles
        = F.numParticles - 1) ∧
    ((∀ v ∈ l₁, 0 ≤ v ∧ v < F.numParticles) →
      ({ F with m_removedFluidIndicies := l₁ } : FluidSph).removeMarkedFluids.numParticles
        = F.numParticles - l₁.dedup.length) := by
  have hrep : ∀ (v : Int) (k : Nat), 1 ≤ k →
      ({ F with m_removedFluidIndicies := List.replicate k v } :
          FluidSph).removeMarkedFluids.m_particles
        = F.m_particles.removeParticle v := by
    intro v k hk
    unfold FluidSph.removeMarkedFluids
    simp only [flushParticles_eq, flushIndices_replicate v k hk, List.foldl_cons,
      List.foldl_nil]
  refine ⟨?_, ?_, fun v hv => ⟨?_, ?_⟩, fun v => mem_flushIndices v l₁, hrep, ?_, ?_⟩
  · unfold FluidSph.removeMarkedFluids
    simp only [flushParticles_eq, flushIndices_congr l₁ l₂ h]
  · unfold FluidSph.removeMarkedFluids
    simp only [flushParticles_eq]
  · exact List.count_eq_one_of_mem (flushIndices_nodup l₁) ((mem_flushIndices v l₁).2 hv)
  · exact List.count_eq_one_of_mem (flushIndices_nodup l₂)
      ((mem_flushIndices v l₂).2 ((h v).1 hv))
  · intro v k hk h0 hlt
    unfold FluidSph.numParticles at hlt ⊢
    rw [hrep v k hk]
    obtain ⟨_, _, hsize, _⟩ := removeParticle_inRange F.m_particles v h0 hlt
    exact hsize
  · intro hr
    unfold FluidSph.numParticles at hr ⊢
    unfold FluidSph.removeMarkedFluids
    simp only [flushParticles_eq]
    rw [(removeAll_spec _ F.m_particles (flushIndices_sorted l₁)
      (fun v hv => hr v ((mem_flushIndices _ _).1 hv))).1,
      (flushIndices_perm_dedup l₁).length_eq]

theorem example_marks_same_set :
    ∀ v : Int, v ∈ ([1, 3, 3] : List Int) ↔ v ∈ ([3, 1, 1, 3] : List Int) := by
  intro v
  simp only [List.mem_cons, List.mem_singleton, List.not_mem_nil]
  tauto

/-- Witness of `removeMarkedFluids_duplicates_ignored`: the marks 1, 3, 3 and 3, 1, 1, 3 on
four particles leave the particles 0 and 2, and the index 3 marked three times is removed
once. -/
theorem removeMarkedFluids_duplicates_ignored_witness :
    flushIndices [1, 3, 3] = [3, 1] ∧ flushIndices [3, 1, 1, 3] = [3, 1] ∧
    ({ exampleFluid 4 4 [] with m_removedFluidIndicies := [1, 3, 3] } :
        FluidSph).removeMarkedFluids.m_particles.slots
      = [exampleParticle 0, exampleParticle 2] ∧
    ({ exampleFluid 4 4 [] with m_removedFluidIndicies := [3, 3, 3] } :
        FluidSph).removeMarkedFluids.m_particles.slots
      = [exampleParticle 0, exampleParticle 1, exampleParticle 2] ∧
    ({ exampleFluid 4 4 [] with m_removedFluidIndicies := [1, 3, 3] } :
        FluidSph).removeMarkedFluids =
      ({ exampleFluid 4 4 [] with m_removedFluidIndicies := [3, 1, 1, 3] } :
        FluidSph).removeMarkedFluids ∧
    ({ exampleFluid 4 4 [] with m_removedFluidIndicies := [1, 3, 3] } :
        FluidSph).removeMarkedFluids.numParticles
      = (exampleFluid 4 4 []).numParticles - ([1, 3, 3] : List Int).dedup.length :=
  ⟨by decide, by decide, by decide, by decide,
    (removeMarkedFluids_duplicates_ignored (exampleFluid 4 4 []) [1, 3, 3] [3, 1, 1, 3]
      example_marks_same_set).1,
    (removeMarkedFluids_duplicates_ignored (exampleFluid 4 4 []) [1, 3, 3] [3, 1, 1, 3]
      example_marks_same_set).2.2.2.2.2.2 (by decide)⟩

/-- C4: when every pending value lies in `[0, n)`, the indices the flush passes to
`removeParticle` are strictly decreasing, and at the moment an index is passed it is below the
current count and its slot holds the record it held before the flush started. -/
theorem removeMarkedFluids_calls (P : FluidParticles) (pending : List Int)
    (h : ∀ v ∈ pending, 0 ≤ v ∧ v < P.size) :
    (flushIndices pending).Sorted (· > ·) ∧
    (flushCalls P pending).map Prod.fst = flushIndices pending ∧
    (flushIndices pending).foldl FluidParticles.removeParticle P = flushParticles P pending ∧
    ∀ c ∈ flushCalls P pending,
      0 ≤ c.1 ∧ c.1 < c.2.size ∧
      (readSlot c.2.slots c.1).isSome = true ∧
      readSlot c.2.slots c.1 = readSlot P.slots c.1 := by
  refine ⟨flushIndices_sorted pending, removalCalls_fst _ P, (flushParticles_eq P pending).symm,
    fun c hc => ?_⟩
  obtain ⟨h0, h1, h2⟩ := removalCalls_spec _ P (flushIndices_sorted pending)
    (fun v hv => h v ((mem_flushIndices _ _).1 hv)) c hc
  refine ⟨h0, h1, ?_, h2⟩
  unfold readSlot
  rw [if_pos h0]
  unfold FluidParticles.size at h1
  have : c.1.toNat < c.2.slots.length := by omega
  simp [List.getElem?_eq_getElem this]

/-- Witness of `removeMarkedFluids_calls`: four particles, marks 1, 3, 3; the calls are
`removeParticle(3)` on the four particles and `removeParticle(1)` on the first three. -/
theorem removeMarkedFluids_calls_witness :
    (flushCalls (exampleFluid 4 4 []).m_particles [1, 3, 3]).map
        (fun c => (c.1, c.2.slots.map (fun p => p.m_userPointer))) =
      [(3, [0, 1, 2, 3]), (1, [0, 1, 2])] ∧
    ((flushIndices [1, 3, 3]).Sorted (· > ·) ∧
    (flushCalls (exampleFluid 4 4 []).m_particles [1, 3, 3]).map Prod.fst
      = flushIndices [1, 3, 3] ∧
    (flushIndices [1, 3, 3]).foldl FluidParticles.removeParticle
        (exampleFluid 4 4 []).m_particles
      = flushParticles (exampleFluid 4 4 []).m_particles [1, 3, 3] ∧
    ∀ c ∈ flushCalls (exampleFluid 4 4 []).m_particles [1, 3, 3],
      0 ≤ c.1 ∧ c.1 < c.2.size ∧
      (readSlot c.2.slots c.1).isSome = true ∧
      readSlot c.2.slots c.1 = readSlot (exampleFluid 4 4 []).m_particles.slots c.1) :=
  ⟨by decide, removeMarkedFluids_calls (exampleFluid 4 4 []).m_particles [1, 3, 3] (by decide)⟩

theorem readSlot_append_left (l : List Particle) (q : Particle) (i : Int)
    (hi : i < (l.length : Int)) : readSlot (l ++ [q]) i = readSlot l i := by
  unfold readSlot
  by_cases h0 : 0 ≤ i
  · rw [if_pos h0, if_pos h0]
    have : i.toNat < l.length := by omega
    simp [List.getElem?_append_left this]
  · rw [if_neg h0, if_neg h0]

theorem readSlot_append_length (l : List Particle) (q : Particle) :
    readSlot (l ++ [q]) (l.length : Int) = some q := by
  unfold readSlot
  rw [if_pos (by omega)]
  simp

/-- C5: below capacity `addParticle` returns the old count, raises the count by one, stores
the position with zero velocity and zero force at the returned index and leaves every other
particle unchanged; at capacity it returns the count and leaves the fluid unchanged. -/
theorem addParticle_soft_fail (F : FluidSph) (p : btVector3) :
    (F.numParticles < F.getMaxParticles →
      (F.addParticle p).1 = F.numParticles ∧
      (F.addParticle p).2.numParticles = F.numParticles + 1 ∧
      (F.addParticle p).2.getMaxParticles = F.getMaxParticles ∧
      (∃ q, readSlot (F.addParticle p).2.m_particles.slots (F.addParticle p).1 = some q ∧
        q.m_pos = p ∧ q.m_vel = btVector3.zero ∧ q.m_accumulatedForce = btVector3.zero ∧
        q.m_sph_force = btVector3.zero) ∧
      (∀ i : Int, i < F.numParticles →
        readSlot (F.addParticle p).2.m_particles.slots i = readSlot F.m_particles.slots i)) ∧
    (F.numParticles = F.getMaxParticles →
      (F.addParticle p).1 = F.numParticles ∧ (F.addParticle p).2 = F) := by
  unfold FluidSph.addParticle FluidParticles.addParticle FluidSph.numParticles
    FluidSph.getMaxParticles FluidParticles.getMaxParticles
  constructor
  · intro h
    rw [if_pos h]
    refine ⟨rfl, ?_, rfl, ⟨_, readSlot_append_length _ _, rfl, rfl, rfl, rfl⟩, ?_⟩
    · simp [FluidParticles.size]
    · intro i hi
      exact readSlot_append_left _ _ i hi
  · intro h
    have : ¬ F.m_particles.size < F.m_particles.m_maxParticles := by omega
    rw [if_neg this]
    exact ⟨rfl, rfl⟩

/-- Witness of `addParticle_soft_fail`: a fluid with 2 of 4 particles, and one with 4 of 4. -/
theorem addParticle_soft_fail_witness :
    ((exampleFluid 2 4 []).addParticle ⟨7, 8, 9⟩).1 = 2 ∧
    ((exampleFluid 4 4 []).addParticle ⟨7, 8, 9⟩) = (4, exampleFluid 4 4 []) ∧
    ((exampleFluid 2 4 []).numParticles < (exampleFluid 2 4 []).getMaxParticles) ∧
    ((exampleFluid 4 4 []).numParticles = (exampleFluid 4 4 []).getMaxParticles) ∧
    ((exampleFluid 2 4 []).addParticle ⟨7, 8, 9⟩).2.numParticles
      = (exampleFluid 2 4 []).numParticles + 1 ∧
    ((exampleFluid 4 4 []).addParticle ⟨7, 8, 9⟩).2 = exampleFluid 4 4 [] :=
  ⟨by decide, by decide, by decide, by decide,
    ((addParticle_soft_fail (exampleFluid 2 4 []) ⟨7, 8, 9⟩).1 (by decide)).2.1,
    ((addParticle_soft_fail (exampleFluid 4 4 []) ⟨7, 8, 9⟩).2 (by decide)).2⟩

/-- C6 (the code at the failing input): on a fluid already holding `maxParticles = 2`
particles, `emit` with `numParticles = 1` issues `setVelocity(2, dir)` while the particle
count is 2: the index is not below the count. -/
theorem emit_at_capacity_setVelocity_index :
    (exampleFluid 2 2 []).numParticles = (exampleFluid 2 2 []).getMaxParticles ∧
    (exampleEmitter.emit (exampleFluid 2 2 []) 1 1 exampleDir).2 = [(2, 2)] ∧
    ¬ (∀ c ∈ (exampleEmitter.emit (exampleFluid 2 2 []) 1 1 exampleDir).2, c.1 < c.2) := by
  decide

theorem readSlot_modifySlot (slots : List Particle) (i j : Int) (f : Particle → Particle) :
    readSlot (modifySlot slots i f) j =
      if i = j then (readSlot slots j).map f else readSlot slots j := by
  unfold readSlot modifySlot
  by_cases hi : 0 ≤ i
  · by_cases hj : 0 ≤ j
    · simp only [if_pos hi, if_pos hj, List.get?_eq_getElem?, List.getElem?_modify]
      by_cases hij : i = j
      · subst hij; simp
      · have : i.toNat ≠ j.toNat := by omega
        simp [hij, this]
    · simp only [if_pos hi, if_neg hj]
      split <;> simp
  · by_cases hj : 0 ≤ j
    · have hij : i ≠ j := by omega
      simp only [if_neg hi, if_pos hj, if_neg hij]
    · simp only [if_neg hi, if_neg hj]
      split <;> simp

/-- C7: for an index `i` of the live range, after `setVelocity(i, v)` both `getVelocity(i)`
and `getEvalVelocity(i)` are `v`; the particle count, the capacity, the pending-removal list,
the grid, every position, and the two velocities of every other index are unchanged. -/
theorem setVelocity_frame (F : FluidSph) (i : Int) (v : btVector3)
    (h0 : 0 ≤ i) (hlt : i < F.numParticles) :
    (F.setVelocity i v).getVelocity i = some v ∧
    (F.setVelocity i v).getEvalVelocity i = some v ∧
    (F.setVelocity i v).numParticles = F.numParticles ∧
    (F.setVelocity i v).getMaxParticles = F.getMaxParticles ∧
    (F.setVelocity i v).m_removedFluidIndicies = F.m_removedFluidIndicies ∧
    (F.setVelocity i v).m_grid = F.m_grid ∧
    (∀ j : Int, (F.setVelocity i v).getPosition j = F.getPosition j) ∧
    (∀ j : Int, j ≠ i →
      (F.setVelocity i v).getVelocity j = F.getVelocity j ∧
      (F.setVelocity i v).getEvalVelocity j = F.getEvalVelocity j) := by
  unfold FluidSph.numParticles FluidParticles.size at hlt
  have hi : i.toNat < F.m_particles.slots.length := by omega
  have hsome : ∃ q, readSlot F.m_particles.slots i = some q := by
    unfold readSlot
    rw [if_pos h0]
    exact ⟨F.m_particles.slots[i.toNat], by simp [List.getElem?_eq_getElem hi]⟩
  obtain ⟨q, hq⟩ := hsome
  unfold FluidSph.getVelocity FluidSph.getEvalVelocity FluidSph.getPosition
    FluidSph.numParticles FluidSph.getMaxParticles FluidSph.setVelocity
  simp only [readSlot_modifySlot]
  refine ⟨?_, ?_, ?_, rfl, trivial, trivial, ?_, ?_⟩
  · simp [hq]
  · simp [hq]
  · unfold FluidParticles.size modifySlot
    simp [h0]
  · intro j
    split
    · cases readSlot F.m_particles.slots j <;> simp
    · rfl
  · intro j hj
    simp [Ne.symm hj]

/-- Witness of `setVelocity_frame`: index 1 of a fluid of three particles. -/
theorem setVelocity_frame_witness :
    (0 : Int) ≤ 1 ∧ (1 : Int) < (exampleFluid 3 4 []).numParticles ∧
    ((exampleFluid 3 4 []).setVelocity 1 ⟨5, 6, 7⟩).getVelocity 1 = some ⟨5, 6, 7⟩ ∧
    ((exampleFluid 3 4 []).setVelocity 1 ⟨5, 6, 7⟩).getEvalVelocity 1 = some ⟨5, 6, 7⟩ :=
  ⟨by decide, by decide,
    (setVelocity_frame (exampleFluid 3 4 []) 1 ⟨5, 6, 7⟩ (by decide) (by decide)).1,
    (setVelocity_frame (exampleFluid 3 4 []) 1 ⟨5, 6, 7⟩ (by decide) (by decide)).2.1⟩

theorem getValueBody_eq (x y z : ℚ) (pos : btVector3) (sum : WithTop ℚ) :
    getValueBody x y z pos sum = sum + kernelTerm getValueR2 x y z pos := by
  unfold getValueBody kernelTerm
  split <;> simp

theorem kernelSum_nil (c x y z : ℚ) : kernelSum c x y z [] = 0 := rfl

theorem kernelSum_cons (c x y z : ℚ) (p : btVector3) (ps : List btVector3) :
    kernelSum c x y z (p :: ps) = kernelTerm c x y z p + kernelSum c x y z ps := by
  simp [kernelSum]

theorem kernelSum_append (c x y z : ℚ) (ps qs : List btVector3) :
    kernelSum c x y z (ps ++ qs) = kernelSum c x y z ps + kernelSum c x y z qs := by
  simp [kernelSum]

theorem getValueCell_eq (ll : Bool) (slots : List Particle) (x y z : ℚ) (last : Int)
    (fuel : Nat) :
    ∀ (n : Int) (sum : WithTop ℚ),
      getValueCell ll slots x y z last fuel n sum =
        (cellPositions ll slots last fuel n).map
          (fun ps => sum + kernelSum getValueR2 x y z ps) := by
  induction fuel with
  | zero =>
    intro n sum
    unfold getValueCell cellPositions
    split <;> simp [kernelSum_nil]
  | succ fuel ih =>
    intro n sum
    unfold getValueCell cellPositions
    split
    · cases hr : readSlot slots n with
      | none => simp
      | some p =>
        simp only
        rw [ih, getValueBody_eq]
        cases cellPositions ll slots last fuel (FluidGridIterator.getNextIndex n ll p) with
        | none => simp
        | some ps => simp [kernelSum_cons, add_assoc]
    · simp [kernelSum_nil]

theorem getValue_foldlM_eq (ll : Bool) (slots : List Particle) (x y z : ℚ) (fuel : Nat)
    (cells : List FluidGridIterator) :
    ∀ (acc : List btVector3),
      cells.foldlM
        (fun sum FI => getValueCell ll slots x y z FI.m_lastIndex fuel FI.m_firstIndex sum)
        (kernelSum getValueR2 x y z acc) =
      (cells.foldlM
        (fun acc FI => (cellPositions ll slots FI.m_lastIndex fuel FI.m_firstIndex).map
          (fun ps => acc ++ ps)) acc).map (kernelSum getValueR2 x y z) := by
  induction cells with
  | nil => intro acc; simp
  | cons FI rest ih =>
    intro acc
    simp only [getValueCell_eq] at ih
    simp only [List.foldlM_cons, getValueCell_eq]
    cases cellPositions ll slots FI.m_lastIndex fuel FI.m_firstIndex with
    | none => simp
    | some ps =>
      simp only [Option.map_some', Option.some_bind, Option.bind_eq_bind]
      rw [← kernelSum_append, ih]

theorem cellPositions_range_total (slots : List Particle) (last : Int)
    (hlast : last ≤ (slots.length : Int)) (fuel : Nat) :
    ∀ n : Int, (n = -1 ∨ 0 ≤ n) → last - n ≤ fuel →
      (cellPositions false slots last fuel n).isSome = true := by
  induction fuel with
  | zero =>
    intro n hn hm
    unfold cellPositions
    have : FluidGridIterator.isIndexValid n last = false := by
      simp [FluidGridIterator.isIndexValid]; intro _; simp at hm; omega
    simp [this]
  | succ fuel ih =>
    intro n hn hm
    unfold cellPositions
    by_cases hv : FluidGridIterator.isIndexValid n last = true
    · simp only [hv, if_true]
      simp [FluidGridIterator.isIndexValid, INVALID_PARTICLE_INDEX] at hv
      have h0 : 0 ≤ n := by omega
      have hlt : n.toNat < slots.length := by omega
      have hr : readSlot slots n = some slots[n.toNat] := by
        unfold readSlot
        rw [if_pos h0]
        simp [List.getElem?_eq_getElem hlt]
      rw [hr]
      simp only [Option.isSome_map']
      exact ih _ (Or.inr (by simp [FluidGridIterator.getNextIndex]; omega))
        (by simp [FluidGridIterator.getNextIndex]; push_cast at hm; omega)
    · simp [hv]

theorem cellPositions_chain_total (slots : List Particle) (last : Int)
    (hchain : ∀ i : Int, ∀ p, readSlot slots i = some p →
      -1 ≤ p.m_nextFluidIndex ∧ p.m_nextFluidIndex < i) (fuel : Nat) :
    ∀ n : Int, -1 ≤ n → n < (slots.length : Int) → n + 1 ≤ fuel →
      (cellPositions true slots last fuel n).isSome = true := by
  induction fuel with
  | zero =>
    intro n hn hlt hm
    unfold cellPositions
    have : FluidGridIterator.isIndexValid n last = false := by
      simp [FluidGridIterator.isIndexValid, INVALID_PARTICLE_INDEX]; intro h; simp at hm; omega
    simp [this]
  | succ fuel ih =>
    intro n hn hlt hm
    unfold cellPositions
    by_cases hv : FluidGridIterator.isIndexValid n last = true
    · simp only [hv, if_true]
      simp [FluidGridIterator.isIndexValid, INVALID_PARTICLE_INDEX] at hv
      have h0 : 0 ≤ n := by omega
      have hlt' : n.toNat < slots.length := by omega
      have hr : readSlot slots n = some slots[n.toNat] := by
        unfold readSlot
        rw [if_pos h0]
        simp [List.getElem?_eq_getElem hlt']
      rw [hr]
      simp only [Option.isSome_map']
      obtain ⟨c1, c2⟩ := hchain n _ hr
      exact ih _ (by simpa [FluidGridIterator.getNextIndex] using c1)
        (by simp [FluidGridIterator.getNextIndex]; omega)
        (by simp [FluidGridIterator.getNextIndex]; push_cast at hm; omega)
    · simp [hv]

theorem foundPositions_foldlM_total (ll : Bool) (slots : List Particle) (fuel : Nat)
    (cells : List FluidGridIterator)
    (hcell : ∀ FI ∈ cells,
      (cellPositions ll slots FI.m_lastIndex fuel FI.m_firstIndex).isSome = true) :
    ∀ acc : List btVector3,
      (cells.foldlM
        (fun acc FI => (cellPositions ll slots FI.m_lastIndex fuel FI.m_firstIndex).map
          (fun ps => acc ++ ps)) acc).isSome = true := by
  induction cells with
  | nil => intro acc; simp
  | cons FI rest ih =>
    intro acc
    simp only [List.foldlM_cons]
    have h1 := hcell FI (by simp)
    obtain ⟨ps, hps⟩ := Option.isSome_iff_exists.1 h1
    rw [hps]
    simp only [Option.map_some', Option.some_bind, Option.bind_eq_bind]
    exact ih (fun FI' h' => hcell FI' (by simp [h'])) _

theorem cellPositions_invalid (ll : Bool) (slots : List Particle) (last : Int) (fuel : Nat)
    (n : Int) (h : FluidGridIterator.isIndexValid n last = false) :
    cellPositions ll slots last fuel n = some [] := by
  cases fuel <;> simp [cellPositions, h]

theorem foundPositions_total (findCells : btVector3 → ℚ → List FluidGridIterator) (fuel : Nat)
    (F : FluidSph) (x y z : ℚ)
    (hwf : queryWellFormed F (findCells ⟨x, y, z⟩ (F.m_grid.getCellSize / 2)))
    (hfuel : F.m_particles.size ≤ fuel) :
    (F.foundPositions findCells fuel x y z).isSome = true := by
  unfold FluidSph.foundPositions
  apply foundPositions_foldlM_total
  intro FI hFI
  unfold queryWellFormed at hwf
  unfold FluidParticles.size at hwf hfuel
  by_cases hll : F.m_grid.m_isLinkedList = true
  · rw [if_pos hll] at hwf
    rw [hll]
    obtain ⟨h1, h2⟩ := hwf.2 FI hFI
    exact cellPositions_chain_total _ _ hwf.1 fuel _ h1 h2 (by omega)
  · rw [if_neg hll] at hwf
    have hll' : F.m_grid.m_isLinkedList = false := by simpa using hll
    rw [hll']
    obtain ⟨h1, h2⟩ := hwf FI hFI
    rcases h1 with h1 | h1
    · rw [cellPositions_invalid _ _ _ _ _
        (by simp [FluidGridIterator.isIndexValid, INVALID_PARTICLE_INDEX, h1])]
      rfl
    · exact cellPositions_range_total _ _ h2 fuel _ (Or.inr h1) (by omega)

theorem getValue_eq_map (findCells : btVector3 → ℚ → List FluidGridIterator) (fuel : Nat)
    (F : FluidSph) (x y z : ℚ) :
    F.getValue findCells fuel x y z =
      (F.foundPositions findCells fuel x y z).map (kernelSum getValueR2 x y z) := by
  unfold FluidSph.getValue FluidSph.foundPositions
  exact getValue_foldlM_eq _ _ x y z fuel _ []

/-- C8 (as stated, refuted): cell size 2, so `searchRadius = 1`; the query finds the single
particle at the origin; at the sample point `(3/2, 0, 0)`, farther than `searchRadius` from
it, `getValue` is `3.24 / 2.25 = 36/25`, while the sum restricted to the found particles
nearer than `searchRadius` is 0. -/
theorem getValue_counts_beyond_searchRadius :
    (exampleFluid 1 4 []).m_grid.getCellSize / 2 = 1 ∧
    (exampleFluid 1 4 []).foundPositions exampleFindCells 2 (3 / 2) 0 0 = some [⟨0, 0, 0⟩] ∧
    (exampleFluid 1 4 []).getValue exampleFindCells 2 (3 / 2) 0 0
      = some ((36 / 25 : ℚ) : WithTop ℚ) ∧
    ((exampleFluid 1 4 []).foundPositions exampleFindCells 2 (3 / 2) 0 0).map
        (kernelSum (((exampleFluid 1 4 []).m_grid.getCellSize / 2) ^ 2) (3 / 2) 0 0)
      = some 0 ∧
    (exampleFluid 1 4 []).getValue exampleFindCells 2 (3 / 2) 0 0 ≠
      ((exampleFluid 1 4 []).foundPositions exampleFindCells 2 (3 / 2) 0 0).map
        (kernelSum (((exampleFluid 1 4 []).m_grid.getCellSize / 2) ^ 2) (3 / 2) 0 0) := by
  have h1 : (exampleFluid 1 4 []).foundPositions exampleFindCells 2 (3 / 2) 0 0
      = some [⟨0, 0, 0⟩] := by decide
  have h2 : (exampleFluid 1 4 []).getValue exampleFindCells 2 (3 / 2) 0 0
      = some ((36 / 25 : ℚ) : WithTop ℚ) := by
    simp [FluidSph.getValue, exampleFindCells, exampleFluid, getValueCell,
      FluidGridIterator.isIndexValid, INVALID_PARTICLE_INDEX, readSlot, exampleParticle,
      FluidGridIterator.getNextIndex, exampleGrid, Particle.blank, getValueBody, distanceSq,
      getValueR2, scalarDiv]
    norm_num
  have h3 : kernelSum (((exampleFluid 1 4 []).m_grid.getCellSize / 2) ^ 2) (3 / 2) 0 0
      [⟨0, 0, 0⟩] = 0 := by
    simp [kernelSum, kernelTerm, exampleFluid, exampleGrid, Grid.getCellSize, distanceSq]
    norm_num
  refine ⟨by simp [exampleFluid, exampleGrid, Grid.getCellSize], h1, h2, ?_, ?_⟩
  · rw [h1, Option.map_some', h3]
  · rw [h1, h2, Option.map_some', h3]
    intro h
    have := Option.some.inj h
    norm_num at this

/-- C8 (amended): `getValue` at a sample point is the sum of `R2 / d2`, with `R2 = 1.8 * 1.8`
and `d2` the squared distance, over the particles found by the grid query whose `d2` is below
`R2`; it returns whenever the query is well formed and the fuel covers the particle count. -/
theorem getValue_eq_kernelSum (findCells : btVector3 → ℚ → List FluidGridIterator)
    (fuel : Nat) (F : FluidSph) (x y z : ℚ) :
    F.getValue findCells fuel x y z =
      (F.foundPositions findCells fuel x y z).map (kernelSum getValueR2 x y z) ∧
    (queryWellFormed F (findCells ⟨x, y, z⟩ (F.m_grid.getCellSize / 2)) →
      F.m_particles.size ≤ fuel →
      ∃ ps, F.foundPositions findCells fuel x y z = some ps ∧
        F.getValue findCells fuel x y z = some (kernelSum getValueR2 x y z ps)) := by
  refine ⟨getValue_eq_map findCells fuel F x y z, fun hwf hfuel => ?_⟩
  obtain ⟨ps, hps⟩ := Option.isSome_iff_exists.1 (foundPositions_total findCells fuel F x y z
    hwf hfuel)
  exact ⟨ps, hps, by rw [getValue_eq_map, hps]; rfl⟩

theorem exampleFluid_one_wellFormed (s : btVector3) (r : ℚ) :
    queryWellFormed (exampleFluid 1 4 []) (exampleFindCells s r) := by
  unfold queryWellFormed
  simp only [exampleFluid, exampleGrid, if_true, exampleFindCells, List.mem_singleton]
  refine ⟨?_, ?_⟩
  · intro i p hp
    unfold readSlot at hp
    split at hp
    · rename_i h0
      have : i.toNat = 0 := by
        by_contra hne
        have h1 : 1 ≤ i.toNat := by omega
        simp [List.get?_eq_getElem?, List.getElem?_eq_none, h1] at hp
      rw [this] at hp
      simp at hp
      subst hp
      simp [exampleParticle, Particle.blank, INVALID_PARTICLE_INDEX]
      omega
    · exact absurd hp (by simp)
  · intro FI hFI
    subst hFI
    simp [FluidParticles.size]

/-- Witness of `getValue_eq_kernelSum`: one particle at the origin, sampled at
`(3/2, 0, 0)`. -/
theorem getValue_eq_kernelSum_witness :
    kernelSum getValueR2 (3 / 2) 0 0 [⟨0, 0, 0⟩] = ((36 / 25 : ℚ) : WithTop ℚ) ∧
    ∃ ps, (exampleFluid 1 4 []).foundPositions exampleFindCells 2 (3 / 2) 0 0 = some ps ∧
      (exampleFluid 1 4 []).getValue exampleFindCells 2 (3 / 2) 0 0
        = some (kernelSum getValueR2 (3 / 2) 0 0 ps) :=
  ⟨by simp [kernelSum, kernelTerm, distanceSq, getValueR2, scalarDiv]; norm_num,
    (getValue_eq_kernelSum exampleFindCells 2 (exampleFluid 1 4 []) (3 / 2) 0 0).2
      (exampleFluid_one_wellFormed _ _) (by decide)⟩

/-- The value of `getValue` at the position of a particle found by the query: the division by
the zero squared distance is not guarded, and the sum is `+infinity`. -/
theorem getValue_at_particle_position :
    (exampleFluid 1 4 []).getValue exampleFindCells 2 0 0 0 = some ⊤ := by
  simp [FluidSph.getValue, exampleFindCells, exampleFluid, getValueCell,
    FluidGridIterator.isIndexValid, INVALID_PARTICLE_INDEX, readSlot, exampleParticle,
    FluidGridIterator.getNextIndex, exampleGrid, Particle.blank, getValueBody, distanceSq,
    getValueR2, scalarDiv]

theorem set_eq_self_of_getElem? {α : Type} (l : List α) (i : Nat) (v : α)
    (h : l[i]? = some v) : l.set i v = l := by
  apply List.ext_getElem?
  intro j
  rw [List.getElem?_set]
  by_cases hij : i = j
  · subst hij
    rw [if_pos rfl, h]
    have : i < l.length := by
      by_contra hn
      rw [List.getElem?_eq_none (by omega)] at h
      exact absurd h (by simp)
    rw [if_pos this]
  · rw [if_neg hij]

theorem insertParticle_frame (st : Grid × List Particle) (i : Nat) :
    (Grid.insertParticle st i).2.map Particle.physicalFields
        = st.2.map Particle.physicalFields ∧
    (Grid.insertParticle st i).2.length = st.2.length := by
  unfold Grid.insertParticle
  cases h : st.2.get? i with
  | none => simp
  | some p =>
    simp only [List.length_set, and_true]
    rw [List.map_set]
    apply set_eq_self_of_getElem?
    rw [List.getElem?_map, ← List.get?_eq_getElem?, h]
    rfl

theorem insertParticles_frame (G : Grid) (P : FluidParticles) :
    (G.insertParticles P).2.slots.map Particle.physicalFields
        = P.slots.map Particle.physicalFields ∧
    (G.insertParticles P).2.size = P.size ∧
    (G.insertParticles P).2.m_maxParticles = P.m_maxParticles := by
  unfold Grid.insertParticles FluidParticles.size
  simp only
  have key : ∀ (l : List Nat) (st : Grid × List Particle),
      (l.foldl Grid.insertParticle st).2.map Particle.physicalFields
        = st.2.map Particle.physicalFields ∧
      (l.foldl Grid.insertParticle st).2.length = st.2.length := by
    intro l
    induction l with
    | nil => intro st; simp
    | cons i rest ih =>
      intro st
      rw [List.foldl_cons]
      obtain ⟨h1, h2⟩ := ih (Grid.insertParticle st i)
      obtain ⟨h3, h4⟩ := insertParticle_frame st i
      exact ⟨h1.trans h3, h2.trans h4⟩
  obtain ⟨h1, h2⟩ := key (List.range P.slots.length) (G, P.slots)
  exact ⟨h1, by rw [h2], trivial⟩

/-- C10: the state `insertParticlesIntoGrid` hands to the insertion pass has the next-index
field of every live particle equal to `INVALID_PARTICLE_INDEX` and every chain head of the
grid invalid, so that two fluids differing only in next-index fields and chain heads give the
same result; the particle count, the capacity and every position, velocity and force are
unchanged. -/
theorem insertParticlesIntoGrid_resets (F : FluidSph) :
    (∀ i : Int, 0 ≤ i → i < F.numParticles →
      ∃ q, readSlot F.insertionInput.2.slots i = some q ∧
        q.m_nextFluidIndex = INVALID_PARTICLE_INDEX) ∧
    (∀ c, F.insertionInput.1.head c = INVALID_PARTICLE_INDEX) ∧
    F.insertParticlesIntoGrid.m_grid
      = (F.insertionInput.1.insertParticles F.insertionInput.2).1 ∧
    F.insertParticlesIntoGrid.m_particles
      = (F.insertionInput.1.insertParticles F.insertionInput.2).2 ∧
    (∀ F' : FluidSph,
      F'.m_particles.m_maxParticles = F.m_particles.m_maxParticles →
      F'.m_particles.slots.map Particle.resetNext
        = F.m_particles.slots.map Particle.resetNext →
      F'.m_grid.clear = F.m_grid.clear →
      F'.m_removedFluidIndicies = F.m_removedFluidIndicies →
      F'.insertParticlesIntoGrid = F.insertParticlesIntoGrid) ∧
    F.insertParticlesIntoGrid.numParticles = F.numParticles ∧
    F.insertParticlesIntoGrid.getMaxParticles = F.getMaxParticles ∧
    F.insertParticlesIntoGrid.m_particles.slots.map Particle.physicalFields
      = F.m_particles.slots.map Particle.physicalFields := by
  have hin : F.insertionInput.2.slots = F.m_particles.slots.map Particle.resetNext := rfl
  obtain ⟨f1, f2, f3⟩ := insertParticles_frame F.insertionInput.1 F.insertionInput.2
  refine ⟨?_, ?_, rfl, rfl, ?_, ?_, ?_, ?_⟩
  · intro i h0 hlt
    unfold FluidSph.numParticles FluidParticles.size at hlt
    have hi : i.toNat < F.m_particles.slots.length := by omega
    refine ⟨Particle.resetNext (F.m_particles.slots.get ⟨i.toNat, hi⟩), ?_, rfl⟩
    rw [hin]
    unfold readSlot
    rw [if_pos h0]
    simp [List.getElem?_eq_getElem hi]
  · intro c
    rfl
  · intro F' hmax hslots hgrid hpend
    have e : F'.insertionInput = F.insertionInput := by
      unfold FluidSph.insertionInput
      have hs : F'.m_particles.slots.map
            (fun p => { p with m_nextFluidIndex := INVALID_PARTICLE_INDEX })
          = F.m_particles.slots.map
            (fun p => { p with m_nextFluidIndex := INVALID_PARTICLE_INDEX }) := hslots
      simp only [hgrid, hs, hmax]
    unfold FluidSph.insertParticlesIntoGrid
    rw [e, hpend]
  · unfold FluidSph.numParticles
    show (F.insertionInput.1.insertParticles F.insertionInput.2).2.size = _
    rw [f2]
    unfold FluidParticles.size
    rw [hin, List.length_map]
  · show (F.insertionInput.1.insertParticles F.insertionInput.2).2.m_maxParticles = _
    rw [f3]
    rfl
  · show (F.insertionInput.1.insertParticles F.insertionInput.2).2.slots.map _ = _
    rw [f1, hin, List.map_map]
    rfl

/-- Witness of `insertParticlesIntoGrid_resets`: the fluid `staleFluid`, whose chain links
and chain heads are left over from an earlier step, gives the same result as the same two
particles without them. -/
theorem insertParticlesIntoGrid_resets_witness :
    staleFluid.insertParticlesIntoGrid.m_particles.slots.map (fun p => p.m_nextFluidIndex)
      = [-1, 0] ∧
    staleFluid.insertParticlesIntoGrid.m_grid.m_heads = [((0, 0, 0), 1)] ∧
    staleFluid.insertParticlesIntoGrid = (exampleFluid 2 4 []).insertParticlesIntoGrid :=
  ⟨by
      have hf : ⌊(2 : ℚ)⁻¹⌋ = 0 := by rw [Int.floor_eq_iff]; norm_num
      simp [staleFluid, FluidSph.insertParticlesIntoGrid, FluidSph.insertionInput,
        Grid.insertParticles, Grid.insertParticle, Grid.clear, exampleGrid, exampleParticle,
        Particle.blank, Grid.cellCoord, Grid.head, INVALID_PARTICLE_INDEX, List.range,
        List.range.loop, hf, List.lookup],
    by
      have hf : ⌊(2 : ℚ)⁻¹⌋ = 0 := by rw [Int.floor_eq_iff]; norm_num
      simp [staleFluid, FluidSph.insertParticlesIntoGrid, FluidSph.insertionInput,
        Grid.insertParticles, Grid.insertParticle, Grid.clear, exampleGrid, exampleParticle,
        Particle.blank, Grid.cellCoord, Grid.head, INVALID_PARTICLE_INDEX, List.range,
        List.range.loop, hf, List.lookup],
    ((insertParticlesIntoGrid_resets (exampleFluid 2 4 [])).2.2.2.2.1 staleFluid
      (by decide) (by decide) (by decide) (by decide))⟩

theorem size_nonneg (P : FluidParticles) : 0 ≤ P.size := by
  unfold FluidParticles.size; omega

theorem resize_zero_slots (P : FluidParticles) : (P.resize 0).slots = [] := by
  simp [FluidParticles.resize]

theorem resize_zero_max (P : FluidParticles) :
    (P.resize 0).m_maxParticles = P.m_maxParticles := rfl

theorem flushParticles_nil (P : FluidParticles) : flushParticles P [] = P := rfl

/-- C11: `0 <= count <= maxParticles` holds after `reset(maxNumParticles)` for
`maxNumParticles >= 0` and is preserved by `addParticle`, `markParticleForRemoval`,
`removeMarkedFluids` with all marks in range, `clear`, and `setMaxParticles(n)`, which for
`n < count` truncates the count to `n` by keeping exactly the `n` lowest indices; a count
can only be truncated to an `n >= 0`, and that is the range of `n` here. -/
theorem countInvariant_preserved :
    (∀ (F : FluidSph) (m : Int), 0 ≤ m → (F.reset m).countInvariant) ∧
    (∀ (F : FluidSph) (p : btVector3), F.countInvariant → (F.addParticle p).2.countInvariant) ∧
    (∀ (F : FluidSph) (i : Int), F.countInvariant →
      (F.markParticleForRemoval i).countInvariant) ∧
    (∀ F : FluidSph, F.countInvariant →
      (∀ v ∈ F.m_removedFluidIndicies, 0 ≤ v ∧ v < F.numParticles) →
      F.removeMarkedFluids.countInvariant) ∧
    (∀ F : FluidSph, F.countInvariant → F.clear.countInvariant) ∧
    (∀ (F : FluidSph) (n : Int), 0 ≤ n → F.countInvariant →
      (F.setMaxParticles n).countInvariant ∧
      (F.setMaxParticles n).getMaxParticles = n ∧
      (n < F.numParticles →
        (F.setMaxParticles n).numParticles = n ∧
        (F.setMaxParticles n).m_particles.slots = F.m_particles.slots.take n.toNat)) := by
  refine ⟨?_, ?_, ?_, ?_, ?_, ?_⟩
  · intro F m hm
    unfold FluidSph.countInvariant FluidSph.numParticles FluidSph.getMaxParticles
      FluidParticles.getMaxParticles FluidSph.reset FluidParticles.setMaxParticles
    simp only [resize_zero_slots, FluidParticles.size, List.length_nil, List.take_nil]
    simp [hm]
  · intro F p h
    unfold FluidSph.countInvariant FluidSph.numParticles FluidSph.getMaxParticles
      FluidParticles.getMaxParticles at *
    refine ⟨size_nonneg _, ?_⟩
    unfold FluidSph.addParticle FluidParticles.addParticle
    simp only
    split
    · rename_i hlt
      simp only [FluidParticles.size, List.length_append, List.length_singleton] at hlt ⊢
      push_cast
      omega
    · exact h.2
  · intro F i h
    exact h
  · intro F h hr
    unfold FluidSph.countInvariant FluidSph.numParticles FluidSph.getMaxParticles
      FluidParticles.getMaxParticles at *
    refine ⟨size_nonneg _, ?_⟩
    unfold FluidSph.removeMarkedFluids
    simp only
    obtain ⟨h1, h2, _⟩ := removeAll_spec _ F.m_particles
      (flushIndices_sorted F.m_removedFluidIndicies)
      (fun v hv => hr v ((mem_flushIndices _ _).1 hv))
    rw [flushParticles_eq, h1, h2]
    omega
  · intro F h
    unfold FluidSph.countInvariant FluidSph.numParticles FluidSph.getMaxParticles
      FluidParticles.getMaxParticles at *
    unfold FluidSph.clear
    simp only [resize_zero_max, FluidParticles.size, resize_zero_slots, List.length_nil]
    simp only [FluidParticles.size] at h
    omega
  · intro F n hn h
    unfold FluidSph.countInvariant FluidSph.numParticles FluidSph.getMaxParticles
      FluidParticles.getMaxParticles at *
    unfold FluidSph.setMaxParticles FluidParticles.setMaxParticles
    simp only [FluidParticles.size] at *
    refine ⟨⟨by omega, ?_⟩, trivial, ?_⟩
    · split
      · rename_i hlt
        rw [List.length_take]
        omega
      · omega
    · intro hlt
      rw [if_pos hlt, List.length_take]
      exact ⟨by omega, rfl⟩

/-- Witness of `countInvariant_preserved`: reset to capacity 4, and a capacity lowered from
4 to 1 on a fluid of 3 particles. -/
theorem countInvariant_preserved_witness :
    ((exampleFluid 3 4 [1]).reset 4).countInvariant ∧
    ((exampleFluid 3 4 [1]).setMaxParticles 1).countInvariant ∧
    ((exampleFluid 3 4 [1]).setMaxParticles 1).m_particles.slots = [exampleParticle 0] ∧
    (exampleFluid 3 4 [1]).removeMarkedFluids.countInvariant :=
  ⟨countInvariant_preserved.1 (exampleFluid 3 4 [1]) 4 (by decide),
    (countInvariant_preserved.2.2.2.2.2 (exampleFluid 3 4 [1]) 1 (by decide)
      (by unfold FluidSph.countInvariant; decide)).1,
    by decide,
    countInvariant_preserved.2.2.2.1 (exampleFluid 3 4 [1])
      (by unfold FluidSph.countInvariant; decide) (by decide)⟩

/-- C17: after `reset(maxNumParticles)` the particle count is 0, the pending-removal list is
empty and the capacity is `maxNumParticles`; after `clear()` the count is 0 and the
pending-removal list is empty; a flush that follows either removes nothing. -/
theorem reset_clear_discard_marks (F : FluidSph) (maxNumParticles : Int) :
    (F.reset maxNumParticles).numParticles = 0 ∧
    (F.reset maxNumParticles).m_removedFluidIndicies = [] ∧
    (F.reset maxNumParticles).getMaxParticles = maxNumParticles ∧
    F.clear.numParticles = 0 ∧
    F.clear.m_removedFluidIndicies = [] ∧
    (F.reset maxNumParticles).removeMarkedFluids = F.reset maxNumParticles ∧
    F.clear.removeMarkedFluids = F.clear := by
  have hr : (F.reset maxNumParticles).m_particles.slots = [] := by
    unfold FluidSph.reset FluidParticles.setMaxParticles
    simp only [resize_zero_slots, List.take_nil, ite_self]
  have hc : F.clear.m_particles.slots = [] := resize_zero_slots _
  refine ⟨?_, rfl, rfl, ?_, rfl, rfl, rfl⟩
  · unfold FluidSph.numParticles FluidParticles.size
    rw [hr]; rfl
  · unfold FluidSph.numParticles FluidParticles.size
    rw [hc]; rfl

/-- C14: the pending-removal list is empty after `removeMarkedFluids`, so a second flush
changes nothing, and a mark made after a flush is the only one the next flush sees. -/
theorem removeMarkedFluids_idempotent (F : FluidSph) :
    F.removeMarkedFluids.m_removedFluidIndicies = [] ∧
    F.removeMarkedFluids.removeMarkedFluids = F.removeMarkedFluids ∧
    F.removeMarkedFluids.removeMarkedFluids.m_particles = F.removeMarkedFluids.m_particles ∧
    ∀ i : Int, (F.removeMarkedFluids.markParticleForRemoval i).m_removedFluidIndicies = [i] :=
  ⟨rfl, rfl, rfl, fun _ => rfl⟩

theorem removeDuplicatesStep_frame (orig a : List Int) (u i : Nat) (hu : u ≤ i)
    (hframe : ∀ j, i - 1 ≤ j → a.getD j 0 = orig.getD j 0) (hi : i < a.length) :
    ((removeDuplicatesStep (a, u) i).2 ≤ i + 1) ∧
    ((removeDuplicatesStep (a, u) i).1.length = a.length) ∧
    ∀ j, i ≤ j → (removeDuplicatesStep (a, u) i).1.getD j 0 = orig.getD j 0 := by
  unfold removeDuplicatesStep
  simp only
  split
  · refine ⟨by omega, by simp, ?_⟩
    intro j hj
    rw [List.getD_eq_getElem?_getD, List.getElem?_set]
    by_cases huj : u = j
    · have hji : j = i := by omega
      subst huj
      subst hji
      rw [if_pos rfl, if_pos hi]
      exact hframe u (by omega)
    · rw [if_neg huj, ← List.getD_eq_getElem?_getD]
      exact hframe j (by omega)
  · exact ⟨by omega, rfl, fun j hj => hframe j (by omega)⟩

theorem removeDuplicates_reads (a : List Int) (k : Nat) :
    k + 1 ≤ a.length →
    ((List.range' 1 k).foldl removeDuplicatesStep (a, 1)).2 ≤ k + 1 ∧
    ((List.range' 1 k).foldl removeDuplicatesStep (a, 1)).1.length = a.length ∧
    ∀ j, k ≤ j →
      ((List.range' 1 k).foldl removeDuplicatesStep (a, 1)).1.getD j 0 = a.getD j 0 := by
  induction k with
  | zero => intro _; simp
  | succ k ih =>
    intro hk
    obtain ⟨h1, h2, h3⟩ := ih (by omega)
    rw [List.range'_concat, List.foldl_append]
    simp only [List.foldl_cons, List.foldl_nil, Nat.one_mul]
    have hst : (List.range' 1 k).foldl removeDuplicatesStep (a, 1) =
        (((List.range' 1 k).foldl removeDuplicatesStep (a, 1)).1,
          ((List.range' 1 k).foldl removeDuplicatesStep (a, 1)).2) := rfl
    rw [hst]
    obtain ⟨g1, g2, g3⟩ := removeDuplicatesStep_frame a
      ((List.range' 1 k).foldl removeDuplicatesStep (a, 1)).1
      ((List.range' 1 k).foldl removeDuplicatesStep (a, 1)).2 (1 + k) (by omega)
      (fun j hj => h3 j (by omega)) (by omega)
    exact ⟨by omega, by omega, fun j hj => g3 j (by omega)⟩

/-- C13: on an array sorted in non-increasing order the in-place duplicate-removal loop ends
with `uniqueSize` equal to the number of distinct values and with the entries at
`[0, uniqueSize)` strictly decreasing, the same set as the array's values, and equal to the
out-of-place removal of adjacent duplicates; the comparison of iteration `i` reads the
original `a[i]` and `a[i-1]`. -/
theorem removeDuplicates_sorted (a : List Int) (h : a.Sorted (· ≥ ·)) :
    (removeDuplicates a).2 = a.dedup.length ∧
    (a = [] → (removeDuplicates a).2 = 0) ∧
    ((removeDuplicates a).1.take (removeDuplicates a).2).Sorted (· > ·) ∧
    (∀ v, v ∈ (removeDuplicates a).1.take (removeDuplicates a).2 ↔ v ∈ a) ∧
    (removeDuplicates a).1.take (removeDuplicates a).2 = dedupAdjacent a ∧
    (∀ i, 1 ≤ i → i < a.length →
      ((List.range' 1 (i - 1)).foldl removeDuplicatesStep (a, 1)).1.getD i 0 = a.getD i 0 ∧
      ((List.range' 1 (i - 1)).foldl removeDuplicatesStep (a, 1)).1.getD (i - 1) 0
        = a.getD (i - 1) 0) := by
  obtain ⟨h1, h2, h3⟩ := removeDuplicates_take a
  have hs : (dedupAdjacent a).Sorted (· > ·) := sorted_dedupAdjacent a h
  have hnd : (dedupAdjacent a).Nodup := hs.imp (fun hab => ne_of_gt hab)
  have hperm : (dedupAdjacent a).Perm a.dedup :=
    (List.perm_ext_iff_of_nodup hnd (List.nodup_dedup a)).2
      (fun v => by rw [mem_dedupAdjacent, List.mem_dedup])
  have hlen : (removeDuplicates a).2 = a.dedup.length := by
    rw [← hperm.length_eq, ← h1, List.length_take]
    omega
  refine ⟨hlen, ?_, ?_, ?_, h1, ?_⟩
  · intro he
    rw [hlen, he]
    rfl
  · rw [h1]; exact hs
  · intro v
    rw [h1, mem_dedupAdjacent]
  · intro i hi1 hi2
    obtain ⟨_, _, g3⟩ := removeDuplicates_reads a (i - 1) (by omega)
    exact ⟨g3 i (by omega), g3 (i - 1) (by omega)⟩

/-- Witness of `removeDuplicates_sorted`: the sorted array 5, 5, 3, 3, 3, 1. -/
theorem removeDuplicates_sorted_witness :
    removeDuplicates [5, 5, 3, 3, 3, 1] = ([5, 3, 1, 3, 3, 1], 3) ∧
    (removeDuplicates [5, 5, 3, 3, 3, 1]).2 = ([5, 5, 3, 3, 3, 1] : List Int).dedup.length ∧
    (removeDuplicates [5, 5, 3, 3, 3, 1]).1.take (removeDuplicates [5, 5, 3, 3, 3, 1]).2
      = dedupAdjacent [5, 5, 3, 3, 3, 1] :=
  ⟨by decide, (removeDuplicates_sorted [5, 5, 3, 3, 3, 1] (by decide)).1,
    (removeDuplicates_sorted [5, 5, 3, 3, 3, 1] (by decide)).2.2.2.2.1⟩

theorem getGradientBody_eq (R2 x y z : ℚ) (pos norm : btVector3) :
    getGradientBody R2 x y z pos norm = norm.add (gradientTerm R2 x y z pos) := by
  unfold getGradientBody gradientTerm
  split
  · simp only [btVector3.add, btVector3.mk.injEq]
    refine ⟨?_, ?_, ?_⟩ <;> ring
  · simp [btVector3.add, btVector3.zero]

theorem gradientSum_nil (R2 x y z : ℚ) : gradientSum R2 x y z [] = btVector3.zero := rfl

theorem add_gradientSum_cons (R2 x y z : ℚ) (v p : btVector3) (ps : List btVector3) :
    v.add (gradientSum R2 x y z (p :: ps)) =
      (v.add (gradientTerm R2 x y z p)).add (gradientSum R2 x y z ps) := by
  simp [btVector3.add, gradientSum, add_assoc]

theorem gradientSum_append (R2 x y z : ℚ) (ps qs : List btVector3) :
    gradientSum R2 x y z (ps ++ qs) =
      (gradientSum R2 x y z ps).add (gradientSum R2 x y z qs) := by
  simp [btVector3.add, gradientSum]

theorem add_zero_vec (v : btVector3) : v.add btVector3.zero = v := by
  simp [btVector3.add, btVector3.zero]

theorem getGradientCell_eq (ll : Bool) (slots : List Particle) (R2 x y z : ℚ) (last : Int)
    (fuel : Nat) :
    ∀ (n : Int) (norm : btVector3),
      getGradientCell ll slots R2 x y z last fuel n norm =
        (cellPositions ll slots last fuel n).map
          (fun ps => norm.add (gradientSum R2 x y z ps)) := by
  induction fuel with
  | zero =>
    intro n norm
    unfold getGradientCell cellPositions
    split <;> simp [gradientSum_nil, add_zero_vec]
  | succ fuel ih =>
    intro n norm
    unfold getGradientCell cellPositions
    split
    · cases hr : readSlot slots n with
      | none => simp
      | some p =>
        simp only
        rw [ih, getGradientBody_eq]
        cases cellPositions ll slots last fuel (FluidGridIterator.getNextIndex n ll p) with
        | none => simp
        | some ps => simp [add_gradientSum_cons]
    · simp [gradientSum_nil, add_zero_vec]

theorem getGradient_foldlM_eq (ll : Bool) (slots : List Particle) (R2 x y z : ℚ) (fuel : Nat)
    (cells : List FluidGridIterator) :
    ∀ (acc : List btVector3),
      cells.foldlM
        (fun norm FI =>
          getGradientCell ll slots R2 x y z FI.m_lastIndex fuel FI.m_firstIndex norm)
        (gradientSum R2 x y z acc) =
      (cells.foldlM
        (fun acc FI => (cellPositions ll slots FI.m_lastIndex fuel FI.m_firstIndex).map
          (fun ps => acc ++ ps)) acc).map (gradientSum R2 x y z) := by
  induction cells with
  | nil => intro acc; simp
  | cons FI rest ih =>
    intro acc
    simp only [getGradientCell_eq] at ih
    simp only [List.foldlM_cons, getGradientCell_eq]
    cases cellPositions ll slots FI.m_lastIndex fuel FI.m_firstIndex with
    | none => simp
    | some ps =>
      simp only [Option.map_some', Option.some_bind, Option.bind_eq_bind]
      rw [← gradientSum_append, ih]

theorem getGradientSum_eq_map (findCells : btVector3 → ℚ → List FluidGridIterator)
    (fuel : Nat) (F : FluidSph) (x y z : ℚ) :
    F.getGradientSum findCells fuel x y z =
      (F.foundPositions findCells fuel x y z).map
        (gradientSum ((F.m_grid.getCellSize / 2) * (F.m_grid.getCellSize / 2)) x y z) := by
  unfold FluidSph.getGradientSum FluidSph.foundPositions
  exact getGradient_foldlM_eq _ _ _ x y z fuel _ []

theorem gradientSum_eq_zero (R2 x y z : ℚ) (ps : List btVector3)
    (h : ∀ p ∈ ps, ¬ (0 < distanceSq x y z p ∧ distanceSq x y z p < R2)) :
    gradientSum R2 x y z ps = btVector3.zero := by
  induction ps with
  | nil => rfl
  | cons p rest ih =>
    have hp : gradientTerm R2 x y z p = btVector3.zero := by
      unfold gradientTerm
      rw [if_neg (h p (by simp))]
    have hrest := ih (fun q hq => h q (by simp [hq]))
    unfold gradientSum at hrest ⊢
    simp only [btVector3.zero, btVector3.mk.injEq] at hrest hp ⊢
    simp only [List.map_cons, List.sum_cons, hrest.1, hrest.2.1, hrest.2.2]
    rw [hp]
    simp

/-- C15: the vector `getGradient` hands to `normalize()` is the sum, over the particles
found by the grid query at position `p` with `0 < d2 < R2`, `d2 = |s - p|^2` and
`R2 = (cellSize/2)^2`, of `(s - p) * 2*R2 / d2^2`; a particle with `d2 = 0` or `d2 >= R2`
contributes nothing, and when no found particle qualifies the vector is the zero vector.
The traversal returns whenever the query is well formed and the fuel covers the particle
count. -/
theorem getGradientSum_eq_gradientSum (findCells : btVector3 → ℚ → List FluidGridIterator)
    (fuel : Nat) (F : FluidSph) (x y z : ℚ) :
    F.getGradientSum findCells fuel x y z =
      (F.foundPositions findCells fuel x y z).map
        (gradientSum ((F.m_grid.getCellSize / 2) ^ 2) x y z) ∧
    (∀ p : btVector3, (distanceSq x y z p = 0 ∨ (F.m_grid.getCellSize / 2) ^ 2 ≤ distanceSq x y z p) →
      gradientTerm ((F.m_grid.getCellSize / 2) ^ 2) x y z p = btVector3.zero) ∧
    (∀ ps, F.foundPositions findCells fuel x y z = some ps →
      (∀ p ∈ ps, ¬ (0 < distanceSq x y z p ∧
        distanceSq x y z p < (F.m_grid.getCellSize / 2) ^ 2)) →
      F.getGradientSum findCells fuel x y z = some btVector3.zero) ∧
    (queryWellFormed F (findCells ⟨x, y, z⟩ (F.m_grid.getCellSize / 2)) →
      F.m_particles.size ≤ fuel →
      ∃ ps, F.foundPositions findCells fuel x y z = some ps ∧
        F.getGradientSum findCells fuel x y z =
          some (gradientSum ((F.m_grid.getCellSize / 2) ^ 2) x y z ps)) := by
  have hmap : F.getGradientSum findCells fuel x y z =
      (F.foundPositions findCells fuel x y z).map
        (gradientSum ((F.m_grid.getCellSize / 2) ^ 2) x y z) := by
    rw [getGradientSum_eq_map, pow_two]
  refine ⟨hmap, ?_, ?_, ?_⟩
  · intro p hp
    unfold gradientTerm
    rw [if_neg]
    rintro ⟨h0, h1⟩
    rcases hp with hp | hp
    · rw [hp] at h0; exact lt_irrefl _ h0
    · exact absurd h1 (not_lt.2 hp)
  · intro ps hps hnone
    rw [hmap, hps, Option.map_some', gradientSum_eq_zero _ x y z ps hnone]
  · intro hwf hfuel
    obtain ⟨ps, hps⟩ := Option.isSome_iff_exists.1
      (foundPositions_total findCells fuel F x y z hwf hfuel)
    exact ⟨ps, hps, by rw [hmap, hps]; rfl⟩

/-- Witness of `getGradientSum_eq_gradientSum`: one particle at the origin, cell size 2,
sampled at `(1/2, 0, 0)`, where the sum is `(16, 0, 0)`, and at the origin itself, where it
is the zero vector. -/
theorem getGradientSum_eq_gradientSum_witness :
    gradientSum (((exampleFluid 1 4 []).m_grid.getCellSize / 2) ^ 2) (1 / 2) 0 0 [⟨0, 0, 0⟩]
      = ⟨16, 0, 0⟩ ∧
    (∃ ps, (exampleFluid 1 4 []).foundPositions exampleFindCells 2 (1 / 2) 0 0 = some ps ∧
      (exampleFluid 1 4 []).getGradientSum exampleFindCells 2 (1 / 2) 0 0 =
        some (gradientSum (((exampleFluid 1 4 []).m_grid.getCellSize / 2) ^ 2) (1 / 2) 0 0 ps)) ∧
    (exampleFluid 1 4 []).getGradientSum exampleFindCells 2 0 0 0 = some btVector3.zero :=
  ⟨by
      simp [gradientSum, gradientTerm, distanceSq, exampleFluid, exampleGrid, Grid.getCellSize]
      norm_num,
    (getGradientSum_eq_gradientSum exampleFindCells 2 (exampleFluid 1 4 []) (1 / 2) 0 0).2.2.2
      (exampleFluid_one_wellFormed _ _) (by decide),
    (getGradientSum_eq_gradientSum exampleFindCells 2 (exampleFluid 1 4 []) 0 0 0).2.2.1
      [⟨0, 0, 0⟩] (by decide) (by simp [distanceSq])⟩

theorem mem_axisRange (lo hi v : Int) : v ∈ axisRange lo hi ↔ lo ≤ v ∧ v ≤ hi := by
  unfold axisRange
  simp only [List.mem_map, List.mem_range]
  constructor
  · rintro ⟨k, hk, rfl⟩
    omega
  · rintro ⟨h1, h2⟩
    exact ⟨(v - lo).toNat, by omega, by omega⟩

theorem length_axisRange (lo hi : Int) : (axisRange lo hi).length = (hi - lo + 1).toNat := by
  simp [axisRange]

theorem mem_cellsInBox (lo hi c : Int × Int × Int) :
    c ∈ cellsInBox lo hi ↔
      (lo.1 ≤ c.1 ∧ c.1 ≤ hi.1) ∧ (lo.2.1 ≤ c.2.1 ∧ c.2.1 ≤ hi.2.1) ∧
        (lo.2.2 ≤ c.2.2 ∧ c.2.2 ≤ hi.2.2) := by
  obtain ⟨c1, c2, c3⟩ := c
  unfold cellsInBox
  simp only [List.mem_flatMap, List.mem_map, mem_axisRange, Prod.mk.injEq]
  constructor
  · rintro ⟨a, ha, b, hb, d, hd, rfl, rfl, rfl⟩
    exact ⟨ha, hb, hd⟩
  · rintro ⟨ha, hb, hd⟩
    exact ⟨c1, ha, c2, hb, c3, hd, rfl, rfl, rfl⟩

theorem length_flatMap_const {α β : Type} (l : List α) (f : α → List β) (n : Nat)
    (h : ∀ a ∈ l, (f a).length = n) : (l.flatMap f).length = l.length * n := by
  induction l with
  | nil => simp
  | cons a rest ih =>
    rw [List.flatMap_cons, List.length_append, h a (by simp),
      ih (fun b hb => h b (by simp [hb])), List.length_cons]
    ring

theorem length_cellsInBox (lo hi : Int × Int × Int) :
    (cellsInBox lo hi).length =
      (hi.1 - lo.1 + 1).toNat * ((hi.2.1 - lo.2.1 + 1).toNat * (hi.2.2 - lo.2.2 + 1).toNat) := by
  unfold cellsInBox
  rw [length_flatMap_const _ _ ((hi.2.1 - lo.2.1 + 1).toNat * (hi.2.2 - lo.2.2 + 1).toNat),
    length_axisRange]
  intro a _
  rw [length_flatMap_const _ _ ((hi.2.2 - lo.2.2 + 1).toNat), length_axisRange]
  intro b _
  rw [List.length_map, length_axisRange]

/-- On one axis: a coordinate within `c/2` of the query coordinate falls in a cell between
the two corner cells, and the corner cells are adjacent. -/
theorem axis_cover (u v c : ℚ) (hc : 0 < c) (h : (u - v) ^ 2 < (c / 2) ^ 2) :
    ⌊(v + -(c / 2)) / c⌋ ≤ ⌊u / c⌋ ∧ ⌊u / c⌋ ≤ ⌊(v + c / 2) / c⌋ ∧
    ⌊(v + c / 2) / c⌋ = ⌊(v + -(c / 2)) / c⌋ + 1 := by
  have habs : |u - v| < c / 2 := by
    have := abs_lt_of_sq_lt_sq h (by positivity)
    simpa using this
  obtain ⟨h1, h2⟩ := abs_lt.1 habs
  refine ⟨?_, ?_, ?_⟩
  · apply Int.floor_le_floor
    apply div_le_div_of_nonneg_right _ hc.le
    linarith
  · apply Int.floor_le_floor
    apply div_le_div_of_nonneg_right _ hc.le
    linarith
  · have : (v + c / 2) / c = (v + -(c / 2)) / c + 1 := by
      field_simp
      ring
    rw [this, Int.floor_add_one]

theorem readSlot_natCast (sl : List Particle) (i : Nat) : readSlot sl (i : Int) = sl.get? i := by
  unfold readSlot
  rw [if_pos (by omega)]
  simp

theorem readSlot_some_range (sl : List Particle) (m : Int) (p : Particle)
    (h : readSlot sl m = some p) : 0 ≤ m ∧ m < (sl.length : Int) := by
  unfold readSlot at h
  by_cases h0 : 0 ≤ m
  · rw [if_pos h0] at h
    refine ⟨h0, ?_⟩
    by_contra hn
    rw [List.get?_eq_getElem?, List.getElem?_eq_none (by omega)] at h
    exact absurd h (by simp)
  · rw [if_neg h0] at h
    exact absurd h (by simp)

theorem readSlot_set_ne (sl : List Particle) (k : Nat) (q : Particle) (m : Int)
    (h : m ≠ (k : Int)) : readSlot (sl.set k q) m = readSlot sl m := by
  unfold readSlot
  by_cases h0 : 0 ≤ m
  · rw [if_pos h0, if_pos h0, List.get?_eq_getElem?, List.get?_eq_getElem?,
      List.getElem?_set, if_neg (by omega)]
  · rw [if_neg h0, if_neg h0]

theorem readSlot_set_self (sl : List Particle) (k : Nat) (q : Particle) (hk : k < sl.length) :
    readSlot (sl.set k q) (k : Int) = some q := by
  rw [readSlot_natCast, List.get?_eq_getElem?, List.getElem?_set, if_pos rfl, if_pos hk]

/-- A chain that starts below `k` and descends does not notice a write at index `k`. -/
theorem InChain_set (sl : List Particle) (k : Nat) (q : Particle)
    (hdesc : ∀ (m : Int) (p : Particle), readSlot sl m = some p → p.m_nextFluidIndex < m)
    (start i : Int) (h : InChain sl start i) :
    start < (k : Int) → InChain (sl.set k q) start i := by
  induction h with
  | head n p hp =>
    intro hlt
    exact InChain.head n p (by rw [readSlot_set_ne _ _ _ _ (by omega)]; exact hp)
  | next n i p hp _ ih =>
    intro hlt
    have hnext := hdesc n p hp
    exact InChain.next n i p (by rw [readSlot_set_ne _ _ _ _ (by omega)]; exact hp)
      (ih (by omega))

theorem lookup_filter_ne (c c' : Int × Int × Int) (l : List ((Int × Int × Int) × Int))
    (h : c ≠ c') :
    (l.filter (fun e => decide (e.1 ≠ c'))).lookup c = l.lookup c := by
  induction l with
  | nil => rfl
  | cons e rest ih =>
    obtain ⟨a, b⟩ := e
    by_cases hac : a = c'
    · subst hac
      have hne : (c == a) = false := by simpa using h
      simp only [ne_eq, decide_not] at ih
      simp [List.filter, List.lookup, hne, ih]
    · by_cases hca : c = a
      · subst hca
        simp [List.filter, List.lookup, hac]
      · have hne : (c == a) = false := by simpa using hca
        simp only [ne_eq, decide_not] at ih
        simp [List.filter, List.lookup, hac, hne, ih]

theorem cellCoord_congr (G G' : Grid) (h1 : G'.m_min = G.m_min)
    (h2 : G'.m_simScale = G.m_simScale) (h3 : G'.m_cellSize = G.m_cellSize)
    (pos : btVector3) : G'.cellCoord pos = G.cellCoord pos := by
  unfold Grid.cellCoord
  rw [h1, h2, h3]

theorem head_insert_self (G : Grid) (c : Int × Int × Int) (k : Int) :
    ({ G with m_heads := (c, k) :: G.m_heads.filter (fun e => decide (e.1 ≠ c)) } : Grid).head c
      = k := by
  simp [Grid.head, List.lookup]

theorem head_insert_ne (G : Grid) (c c' : Int × Int × Int) (k : Int) (h : c' ≠ c) :
    ({ G with m_heads := (c, k) :: G.m_heads.filter (fun e => decide (e.1 ≠ c)) } : Grid).head c'
      = G.head c' := by
  have hne : (c' == c) = false := by simpa using h
  simp only [Grid.head, List.lookup, hne]
  rw [lookup_filter_ne c' c _ h]

theorem insertParticle_some (G : Grid) (sl : List Particle) (k : Nat) (pk : Particle)
    (h : sl.get? k = some pk) :
    ∃ G' : Grid,
      Grid.insertParticle (G, sl) k =
        (G', sl.set k { pk with m_nextFluidIndex := G.head (G.cellCoord pk.m_pos) }) ∧
      G'.head (G.cellCoord pk.m_pos) = (k : Int) ∧
      (∀ c', c' ≠ G.cellCoord pk.m_pos → G'.head c' = G.head c') ∧
      (G'.m_min = G.m_min ∧ G'.m_simScale = G.m_simScale ∧ G'.m_cellSize = G.m_cellSize ∧
        G'.m_isLinkedList = G.m_isLinkedList) ∧
      ∀ pos, G'.cellCoord pos = G.cellCoord pos := by
  refine ⟨_, ?_, head_insert_self G _ _, fun c' hc' => head_insert_ne G _ c' _ hc',
    ⟨rfl, rfl, rfl, rfl⟩, fun pos => rfl⟩
  unfold Grid.insertParticle
  simp only [h]

theorem insertionInvariant_step (G0 : Grid) (sl0 : List Particle) (k : Nat)
    (st : Grid × List Particle) (hinv : insertionInvariant G0 sl0 k st)
    (hk : k < sl0.length) :
    insertionInvariant G0 sl0 (k + 1) (Grid.insertParticle st k) := by
  obtain ⟨G, sl⟩ := st
  obtain ⟨hlen, ⟨hp1, hp2, hp3, hp4⟩, hpos, hdesc, hhead, hchain⟩ := hinv
  simp only at hlen hp1 hp2 hp3 hp4 hpos hdesc hhead hchain
  have hkl : k < sl.length := by omega
  obtain ⟨pk, hpk⟩ : ∃ pk, sl.get? k = some pk :=
    ⟨sl[k], by rw [List.get?_eq_getElem?, List.getElem?_eq_getElem hkl]⟩
  obtain ⟨G', hins, hhs, hhn, ⟨q1, q2, q3, q4⟩, hcc⟩ := insertParticle_some G sl k pk hpk
  rw [hins]
  have hdesc' : ∀ (m : Int) (p : Particle), readSlot sl m = some p → p.m_nextFluidIndex < m :=
    fun m p h => (hdesc m p h).2
  have hself := readSlot_set_self sl k
    { pk with m_nextFluidIndex := G.head (G.cellCoord pk.m_pos) } hkl
  refine ⟨?_, ⟨q1.trans hp1, q2.trans hp2, q3.trans hp3, q4.trans hp4⟩, ?_, ?_, ?_, ?_⟩
  · simp only [List.length_set]; exact hlen
  · intro i
    simp only
    rw [← hpos i, List.get?_eq_getElem?, List.get?_eq_getElem?, List.getElem?_set]
    by_cases hik : k = i
    · subst hik
      rw [if_pos rfl, if_pos hkl, ← List.get?_eq_getElem?, hpk]
      rfl
    · rw [if_neg hik]
  · intro m p hm
    simp only at hm
    by_cases hmk : m = (k : Int)
    · subst hmk
      rw [hself] at hm
      have := Option.some.inj hm
      subst this
      simp only
      have := hhead (G.cellCoord pk.m_pos)
      exact ⟨this.1, this.2⟩
    · rw [readSlot_set_ne _ _ _ _ hmk] at hm
      exact hdesc m p hm
  · intro c
    simp only
    by_cases hc : c = G.cellCoord pk.m_pos
    · subst hc
      rw [hhs]
      omega
    · rw [hhn c hc]
      have := hhead c
      push_cast
      omega
  · intro i hi p hp
    simp only at hp ⊢
    rw [hcc]
    by_cases hik : i = k
    · subst hik
      rw [List.get?_eq_getElem?, List.getElem?_set, if_pos rfl, if_pos hkl] at hp
      have := Option.some.inj hp
      subst this
      simp only
      rw [hhs]
      exact InChain.head _ _ hself
    · have hilt : i < k := by omega
      rw [List.get?_eq_getElem?, List.getElem?_set, if_neg (by omega),
        ← List.get?_eq_getElem?] at hp
      have hold := hchain i hilt p hp
      by_cases hc : G.cellCoord p.m_pos = G.cellCoord pk.m_pos
      · rw [hc, hhs]
        rw [hc] at hold
        exact InChain.next _ _ _ hself
          (InChain_set sl k _ hdesc' _ _ hold (hhead _).2)
      · rw [hhn _ hc]
        exact InChain_set sl k _ hdesc' _ _ hold (hhead _).2

theorem insertionInvariant_fold (G0 : Grid) (sl0 : List Particle)
    (h0 : insertionInvariant G0 sl0 0 (G0, sl0)) (k : Nat) (hk : k ≤ sl0.length) :
    insertionInvariant G0 sl0 k ((List.range k).foldl Grid.insertParticle (G0, sl0)) := by
  induction k with
  | zero => exact h0
  | succ k ih =>
    rw [List.range_succ, List.foldl_append]
    exact insertionInvariant_step G0 sl0 k _ (ih (by omega)) (by omega)

theorem insertionInvariant_init (G : Grid) (sl : List Particle) :
    insertionInvariant G.clear (sl.map Particle.resetNext) 0
      (G.clear, sl.map Particle.resetNext) := by
  refine ⟨rfl, ⟨rfl, rfl, rfl, rfl⟩, fun _ => rfl, ?_, ?_, ?_⟩
  · intro m p hm
    obtain ⟨h0, h1⟩ := readSlot_some_range _ m p hm
    unfold readSlot at hm
    rw [if_pos h0, List.get?_eq_getElem?, List.getElem?_map] at hm
    cases hq : sl[m.toNat]? with
    | none => rw [hq] at hm; exact absurd hm (by simp)
    | some q =>
      rw [hq] at hm
      have := Option.some.inj hm
      subst this
      simp only [Particle.resetNext, INVALID_PARTICLE_INDEX]
      omega
  · intro c
    simp [Grid.head, Grid.clear, INVALID_PARTICLE_INDEX]
  · intro i hi
    omega

/-- The traversal of a descending chain from `m` visits every index on the chain. -/
theorem cellIndices_chain (sl : List Particle) (last : Int)
    (hdesc : ∀ (m : Int) (p : Particle), readSlot sl m = some p →
      -1 ≤ p.m_nextFluidIndex ∧ p.m_nextFluidIndex < m) (fuel : Nat) :
    ∀ m : Int, -1 ≤ m → m < last → m < (sl.length : Int) → m + 1 ≤ fuel →
      ∃ L, cellIndices true sl last fuel m = some L ∧ ∀ i, InChain sl m i → i ∈ L := by
  have hinv : ∀ (m : Int), m = -1 → ∀ i, ¬ InChain sl m i := by
    intro m hm i h
    cases h with
    | head _ p hp => have := (readSlot_some_range _ _ _ hp).1; omega
    | next _ _ p hp _ => have := (readSlot_some_range _ _ _ hp).1; omega
  induction fuel with
  | zero =>
    intro m h1 h2 h3 h4
    have hm : m = -1 := by push_cast at h4; omega
    refine ⟨[], ?_, fun i hi => absurd hi (hinv m hm i)⟩
    simp [cellIndices, FluidGridIterator.isIndexValid, INVALID_PARTICLE_INDEX, hm]
  | succ fuel ih =>
    intro m h1 h2 h3 h4
    by_cases hm : m = -1
    · refine ⟨[], ?_, fun i hi => absurd hi (hinv m hm i)⟩
      simp [cellIndices, FluidGridIterator.isIndexValid, INVALID_PARTICLE_INDEX, hm]
    · have hv : FluidGridIterator.isIndexValid m last = true := by
        simp [FluidGridIterator.isIndexValid, INVALID_PARTICLE_INDEX, hm, h2]
      have hm0 : 0 ≤ m := by omega
      have hlt : m.toNat < sl.length := by omega
      have hr : readSlot sl m = some sl[m.toNat] := by
        unfold readSlot
        rw [if_pos hm0]
        simp [List.getElem?_eq_getElem hlt]
      obtain ⟨d1, d2⟩ := hdesc m _ hr
      obtain ⟨L, hL, hmem⟩ := ih sl[m.toNat].m_nextFluidIndex d1 (by omega) (by omega)
        (by push_cast at h4; omega)
      refine ⟨m :: L, ?_, ?_⟩
      · unfold cellIndices
        simp only [hv, if_true, hr, FluidGridIterator.getNextIndex, hL, Option.map_some']
      · intro i hi
        cases hi with
        | head _ p hp => simp
        | next _ _ p hp hnext =>
          rw [hr] at hp
          have := Option.some.inj hp
          subst this
          exact List.mem_cons_of_mem _ (hmem i hnext)

theorem foundIndices_foldlM (ll : Bool) (sl : List Particle) (fuel : Nat)
    (cells : List FluidGridIterator)
    (hcell : ∀ FI ∈ cells, ∃ L, cellIndices ll sl FI.m_lastIndex fuel FI.m_firstIndex = some L) :
    ∀ acc : List Int,
      ∃ R, cells.foldlM
          (fun acc FI => (cellIndices ll sl FI.m_lastIndex fuel FI.m_firstIndex).map
            (fun ns => acc ++ ns)) acc = some R ∧
        (∀ x ∈ acc, x ∈ R) ∧
        ∀ FI ∈ cells, ∀ L, cellIndices ll sl FI.m_lastIndex fuel FI.m_firstIndex = some L →
          ∀ x ∈ L, x ∈ R := by
  induction cells with
  | nil => intro acc; exact ⟨acc, by simp, fun x hx => hx, by simp⟩
  | cons FI rest ih =>
    intro acc
    obtain ⟨L, hL⟩ := hcell FI (by simp)
    obtain ⟨R, hR, hacc, hrest⟩ := ih (fun FI' h' => hcell FI' (by simp [h'])) (acc ++ L)
    refine ⟨R, ?_, ?_, ?_⟩
    · simp only [List.foldlM_cons, hL, Option.map_some', Option.some_bind,
        Option.bind_eq_bind]
      exact hR
    · intro x hx
      exact hacc x (by simp [hx])
    · intro FI' hFI' L' hL' x hx
      rcases List.mem_cons.1 hFI' with rfl | hmem
      · rw [hL] at hL'
        have := Option.some.inj hL'
        subst this
        exact hacc x (by simp [hx])
      · exact hrest FI' hmem L' hL' x hx

theorem insertParticlesIntoGrid_invariant (F : FluidSph) :
    insertionInvariant F.m_grid.clear (F.m_particles.slots.map Particle.resetNext)
      F.m_particles.slots.length
      (F.insertParticlesIntoGrid.m_grid, F.insertParticlesIntoGrid.m_particles.slots) := by
  have h := insertionInvariant_fold F.m_grid.clear (F.m_particles.slots.map Particle.resetNext)
    (insertionInvariant_init F.m_grid F.m_particles.slots) F.m_particles.slots.length
    (by simp)
  have e : (F.insertParticlesIntoGrid.m_grid, F.insertParticlesIntoGrid.m_particles.slots) =
      (List.range F.m_particles.slots.length).foldl Grid.insertParticle
        (F.m_grid.clear, F.m_particles.slots.map Particle.resetNext) := by
    unfold FluidSph.insertParticlesIntoGrid Grid.insertParticles FluidSph.insertionInput
    simp only [List.length_map]
    rfl
  rw [e]
  exact h

theorem axis_sq_le (s a b c : ℚ) : (s * a) ^ 2 ≤ s ^ 2 * (a * a + b * b + c * c) := by
  nlinarith [mul_self_nonneg (s * b), mul_self_nonneg (s * c)]

/-- After the grid is rebuilt, the query centred on a position `P` visits every live particle
whose scaled distance from `P` is below half the cell size. -/
theorem query_finds (cap : Nat) (hcap : 8 ≤ cap) (F : FluidSph)
    (hc : 0 < F.m_grid.m_cellSize) (hll : F.m_grid.m_isLinkedList = true)
    (P : btVector3) (j : Nat) (pj : Particle) (hj : F.m_particles.slots.get? j = some pj)
    (hd : F.m_grid.m_simScale ^ 2 * distanceSq pj.m_pos.x pj.m_pos.y pj.m_pos.z P
      < (F.m_grid.m_cellSize / 2) ^ 2)
    (fuel : Nat) (hfuel : F.numParticles ≤ fuel) :
    ∃ found, F.insertParticlesIntoGrid.foundIndices
        (F.insertParticlesIntoGrid.m_grid.findCells cap) fuel P.x P.y P.z = some found ∧
      (j : Int) ∈ found := by
  obtain ⟨hlen, ⟨hp1, hp2, hp3, hp4⟩, hpos, hdesc, hhead, hchain⟩ :=
    insertParticlesIntoGrid_invariant F
  simp only at hlen hp1 hp2 hp3 hp4 hpos hdesc hhead hchain
  simp only [List.length_map] at hlen
  have hc' : F.insertParticlesIntoGrid.m_grid.m_cellSize = F.m_grid.m_cellSize := hp3
  have hs' : F.insertParticlesIntoGrid.m_grid.m_simScale = F.m_grid.m_simScale := hp2
  have hm' : F.insertParticlesIntoGrid.m_grid.m_min = F.m_grid.m_min := hp1
  have hll' : F.insertParticlesIntoGrid.m_grid.m_isLinkedList = true := hp4.trans hll
  unfold FluidSph.numParticles FluidParticles.size at hfuel
  -- the record of particle `j` after the rebuild, at the same position
  have hjl : j < F.m_particles.slots.length := by
    by_contra hn
    rw [List.get?_eq_getElem?, List.getElem?_eq_none (by omega)] at hj
    exact absurd hj (by simp)
  obtain ⟨qj, hqj⟩ : ∃ qj, F.insertParticlesIntoGrid.m_particles.slots.get? j = some qj :=
    ⟨F.insertParticlesIntoGrid.m_particles.slots.get ⟨j, by omega⟩, by
      rw [List.get?_eq_getElem?, List.getElem?_eq_getElem (by omega)]; rfl⟩
  have hqpos : qj.m_pos = pj.m_pos := by
    have := hpos j
    rw [hqj, List.get?_eq_getElem?, List.getElem?_map, ← List.get?_eq_getElem?, hj] at this
    exact Option.some.inj this
  have hjchain := hchain j hjl qj hqj
  rw [hqpos] at hjchain
  -- every returned iterator is traversed to the end
  have hall : ∀ c, ∃ L, cellIndices true F.insertParticlesIntoGrid.m_particles.slots
      (F.insertParticlesIntoGrid.m_grid.head c + 1) fuel
      (F.insertParticlesIntoGrid.m_grid.head c) = some L ∧
      ∀ i, InChain F.insertParticlesIntoGrid.m_particles.slots
        (F.insertParticlesIntoGrid.m_grid.head c) i → i ∈ L := by
    intro c
    obtain ⟨h1, h2⟩ := hhead c
    exact cellIndices_chain _ _ hdesc fuel _ h1 (by omega) (by omega) (by omega)
  -- the cell of particle `j` is among the cells of the box, none of which is cut off
  have hbox : F.insertParticlesIntoGrid.m_grid.cellCoord pj.m_pos ∈
      (cellsInBox
        (F.insertParticlesIntoGrid.m_grid.cornerCoord P
          (-(F.insertParticlesIntoGrid.m_grid.getCellSize / 2)))
        (F.insertParticlesIntoGrid.m_grid.cornerCoord P
          (F.insertParticlesIntoGrid.m_grid.getCellSize / 2))).take cap := by
    have hx := axis_cover ((pj.m_pos.x - F.m_grid.m_min.x) * F.m_grid.m_simScale)
      ((P.x - F.m_grid.m_min.x) * F.m_grid.m_simScale) F.m_grid.m_cellSize hc
      (lt_of_le_of_lt (by
        have := axis_sq_le F.m_grid.m_simScale (pj.m_pos.x - P.x) (pj.m_pos.y - P.y)
          (pj.m_pos.z - P.z)
        unfold distanceSq
        calc ((pj.m_pos.x - F.m_grid.m_min.x) * F.m_grid.m_simScale
              - (P.x - F.m_grid.m_min.x) * F.m_grid.m_simScale) ^ 2
            = (F.m_grid.m_simScale * (pj.m_pos.x - P.x)) ^ 2 := by ring
          _ ≤ _ := this) hd)
    have hy := axis_cover ((pj.m_pos.y - F.m_grid.m_min.y) * F.m_grid.m_simScale)
      ((P.y - F.m_grid.m_min.y) * F.m_grid.m_simScale) F.m_grid.m_cellSize hc
      (lt_of_le_of_lt (by
        have := axis_sq_le F.m_grid.m_simScale (pj.m_pos.y - P.y) (pj.m_pos.x - P.x)
          (pj.m_pos.z - P.z)
        unfold distanceSq
        calc ((pj.m_pos.y - F.m_grid.m_min.y) * F.m_grid.m_simScale
              - (P.y - F.m_grid.m_min.y) * F.m_grid.m_simScale) ^ 2
            = (F.m_grid.m_simScale * (pj.m_pos.y - P.y)) ^ 2 := by ring
          _ ≤ _ := by rw [add_comm ((pj.m_pos.x - P.x) * (pj.m_pos.x - P.x))]; exact this) hd)
    have hz := axis_cover ((pj.m_pos.z - F.m_grid.m_min.z) * F.m_grid.m_simScale)
      ((P.z - F.m_grid.m_min.z) * F.m_grid.m_simScale) F.m_grid.m_cellSize hc
      (lt_of_le_of_lt (by
        have := axis_sq_le F.m_grid.m_simScale (pj.m_pos.z - P.z) (pj.m_pos.x - P.x)
          (pj.m_pos.y - P.y)
        unfold distanceSq
        calc ((pj.m_pos.z - F.m_grid.m_min.z) * F.m_grid.m_simScale
              - (P.z - F.m_grid.m_min.z) * F.m_grid.m_simScale) ^ 2
            = (F.m_grid.m_simScale * (pj.m_pos.z - P.z)) ^ 2 := by ring
          _ ≤ _ := by
            have e : (pj.m_pos.x - P.x) * (pj.m_pos.x - P.x) + (pj.m_pos.y - P.y) * (pj.m_pos.y - P.y)
                + (pj.m_pos.z - P.z) * (pj.m_pos.z - P.z)
              = (pj.m_pos.z - P.z) * (pj.m_pos.z - P.z) + (pj.m_pos.x - P.x) * (pj.m_pos.x - P.x)
                + (pj.m_pos.y - P.y) * (pj.m_pos.y - P.y) := by ring
            rw [e]; exact this) hd)
    have hmem : F.insertParticlesIntoGrid.m_grid.cellCoord pj.m_pos ∈
        cellsInBox
          (F.insertParticlesIntoGrid.m_grid.cornerCoord P
            (-(F.insertParticlesIntoGrid.m_grid.getCellSize / 2)))
          (F.insertParticlesIntoGrid.m_grid.cornerCoord P
            (F.insertParticlesIntoGrid.m_grid.getCellSize / 2)) := by
      rw [mem_cellsInBox]
      unfold Grid.cellCoord Grid.cornerCoord Grid.getCellSize
      simp only [hc', hs', hm']
      exact ⟨⟨hx.1, hx.2.1⟩, ⟨hy.1, hy.2.1⟩, ⟨hz.1, hz.2.1⟩⟩
    have hlen8 : (cellsInBox
          (F.insertParticlesIntoGrid.m_grid.cornerCoord P
            (-(F.insertParticlesIntoGrid.m_grid.getCellSize / 2)))
          (F.insertParticlesIntoGrid.m_grid.cornerCoord P
            (F.insertParticlesIntoGrid.m_grid.getCellSize / 2))).length = 8 := by
      rw [length_cellsInBox]
      unfold Grid.cornerCoord Grid.getCellSize
      simp only [hc', hs', hm']
      rw [hx.2.2, hy.2.2, hz.2.2]
      simp
    rw [List.take_of_length_le (by omega)]
    exact hmem
  -- assemble the traversal
  unfold FluidSph.foundIndices
  rw [hll']
  obtain ⟨R, hR, _, hrest⟩ := foundIndices_foldlM true
    F.insertParticlesIntoGrid.m_particles.slots fuel
    (F.insertParticlesIntoGrid.m_grid.findCells cap ⟨P.x, P.y, P.z⟩
      (F.insertParticlesIntoGrid.m_grid.getCellSize / 2))
    (by
      intro FI hFI
      unfold Grid.findCells at hFI
      obtain ⟨c, _, rfl⟩ := List.mem_map.1 hFI
      obtain ⟨L, hL, _⟩ := hall c
      exact ⟨L, hL⟩) []
  refine ⟨R, hR, ?_⟩
  obtain ⟨L, hL, hLmem⟩ := hall (F.insertParticlesIntoGrid.m_grid.cellCoord pj.m_pos)
  refine hrest ⟨_, _⟩ ?_ L hL (j : Int) (hLmem _ hjchain)
  unfold Grid.findCells
  exact List.mem_map.2 ⟨_, hbox, rfl⟩

theorem cellPositions_eq_cellIndices (ll : Bool) (sl : List Particle) (last : Int) (fuel : Nat) :
    ∀ n : Int, cellPositions ll sl last fuel n =
      (cellIndices ll sl last fuel n).map
        (fun ns => ns.filterMap (fun m => (readSlot sl m).map (fun p => p.m_pos))) := by
  induction fuel with
  | zero =>
    intro n
    unfold cellPositions cellIndices
    split <;> simp
  | succ fuel ih =>
    intro n
    unfold cellPositions cellIndices
    split
    · cases hr : readSlot sl n with
      | none => simp
      | some p =>
        simp only
        rw [ih]
        cases cellIndices ll sl last fuel (FluidGridIterator.getNextIndex n ll p) with
        | none => simp
        | some ns => simp [hr]
    · simp

theorem foundPositions_eq_foundIndices (findCells : btVector3 → ℚ → List FluidGridIterator)
    (fuel : Nat) (F : FluidSph) (x y z : ℚ) :
    F.foundPositions findCells fuel x y z =
      (F.foundIndices findCells fuel x y z).map
        (fun ns => ns.filterMap
          (fun m => (readSlot F.m_particles.slots m).map (fun p => p.m_pos))) := by
  unfold FluidSph.foundPositions FluidSph.foundIndices
  have key : ∀ (cells : List FluidGridIterator) (acc : List Int),
      cells.foldlM
        (fun acc FI =>
          (cellPositions F.m_grid.m_isLinkedList F.m_particles.slots FI.m_lastIndex fuel
            FI.m_firstIndex).map (fun ps => acc ++ ps))
        (acc.filterMap (fun m => (readSlot F.m_particles.slots m).map (fun p => p.m_pos))) =
      (cells.foldlM
        (fun acc FI =>
          (cellIndices F.m_grid.m_isLinkedList F.m_particles.slots FI.m_lastIndex fuel
            FI.m_firstIndex).map (fun ns => acc ++ ns)) acc).map
        (fun ns => ns.filterMap
          (fun m => (readSlot F.m_particles.slots m).map (fun p => p.m_pos))) := by
    intro cells
    induction cells with
    | nil => intro acc; simp
    | cons FI rest ih =>
      intro acc
      simp only [List.foldlM_cons, cellPositions_eq_cellIndices]
      simp only [cellPositions_eq_cellIndices] at ih
      cases cellIndices F.m_grid.m_isLinkedList F.m_particles.slots FI.m_lastIndex fuel
          FI.m_firstIndex with
      | none => simp
      | some ns =>
        simp only [Option.map_some', Option.some_bind, Option.bind_eq_bind]
        rw [← List.filterMap_append, ih]
  exact key _ []

/-- C12: with a chain-layout grid of cell size twice the smoothing radius, rebuilt by
`insertParticlesIntoGrid`, for two live particles whose distance (in the scaled units of the
grid) is below the smoothing radius, the traversal of the at most `RESULTS_PER_GRID_SEARCH`
cell iterators returned by `findCells` centred on either particle with radius `cellSize/2`
visits both indices, `RESULTS_PER_GRID_SEARCH` being at least 8; the positions `getValue`
reads are those of the visited indices. -/
theorem findCells_neighbour_complete (resultsPerGridSearch : Nat)
    (hcap : 8 ≤ resultsPerGridSearch) (F : FluidSph) (smoothRadius : ℚ)
    (hR : 0 < smoothRadius) (hcell : F.m_grid.m_cellSize = smoothRadius * 2)
    (hll : F.m_grid.m_isLinkedList = true) (i j : Nat) (p q : Particle)
    (hi : F.m_particles.slots.get? i = some p) (hj : F.m_particles.slots.get? j = some q)
    (hd : F.m_grid.m_simScale ^ 2 * distanceSq q.m_pos.x q.m_pos.y q.m_pos.z p.m_pos
      < smoothRadius ^ 2)
    (fuel : Nat) (hfuel : F.numParticles ≤ fuel) :
    (∀ (P : btVector3) (r : ℚ),
      (F.insertParticlesIntoGrid.m_grid.findCells resultsPerGridSearch P r).length
        ≤ resultsPerGridSearch) ∧
    (∃ found, F.insertParticlesIntoGrid.foundIndices
        (F.insertParticlesIntoGrid.m_grid.findCells resultsPerGridSearch) fuel
        p.m_pos.x p.m_pos.y p.m_pos.z = some found ∧
      (j : Int) ∈ found ∧ (i : Int) ∈ found) ∧
    (∃ found, F.insertParticlesIntoGrid.foundIndices
        (F.insertParticlesIntoGrid.m_grid.findCells resultsPerGridSearch) fuel
        q.m_pos.x q.m_pos.y q.m_pos.z = some found ∧
      (i : Int) ∈ found ∧ (j : Int) ∈ found) ∧
    (∀ x y z : ℚ,
      F.insertParticlesIntoGrid.foundPositions
          (F.insertParticlesIntoGrid.m_grid.findCells resultsPerGridSearch) fuel x y z =
        (F.insertParticlesIntoGrid.foundIndices
          (F.insertParticlesIntoGrid.m_grid.findCells resultsPerGridSearch) fuel x y z).map
          (fun ns => ns.filterMap (fun m =>
            (readSlot F.insertParticlesIntoGrid.m_particles.slots m).map
              (fun p => p.m_pos)))) := by
  have hc : 0 < F.m_grid.m_cellSize := by rw [hcell]; linarith
  have hhalf : (F.m_grid.m_cellSize / 2) ^ 2 = smoothRadius ^ 2 := by
    rw [hcell]; ring
  have hself : ∀ P : btVector3,
      F.m_grid.m_simScale ^ 2 * distanceSq P.x P.y P.z P < (F.m_grid.m_cellSize / 2) ^ 2 := by
    intro P
    have : distanceSq P.x P.y P.z P = 0 := by unfold distanceSq; ring
    rw [this, mul_zero]
    positivity
  have hsym : distanceSq p.m_pos.x p.m_pos.y p.m_pos.z q.m_pos
      = distanceSq q.m_pos.x q.m_pos.y q.m_pos.z p.m_pos := by
    unfold distanceSq; ring
  refine ⟨?_, ?_, ?_, ?_⟩
  · intro P r
    unfold Grid.findCells
    rw [List.length_map]
    exact List.length_take_le _ _
  · obtain ⟨f1, h1, m1⟩ := query_finds resultsPerGridSearch hcap F hc hll p.m_pos j q hj
      (by rw [hhalf]; exact hd) fuel hfuel
    obtain ⟨f2, h2, m2⟩ := query_finds resultsPerGridSearch hcap F hc hll p.m_pos i p hi
      (hself _) fuel hfuel
    rw [h1] at h2
    have := Option.some.inj h2
    subst this
    exact ⟨f1, h1, m1, m2⟩
  · obtain ⟨f1, h1, m1⟩ := query_finds resultsPerGridSearch hcap F hc hll q.m_pos i p hi
      (by rw [hhalf, hsym]; exact hd) fuel hfuel
    obtain ⟨f2, h2, m2⟩ := query_finds resultsPerGridSearch hcap F hc hll q.m_pos j q hj
      (hself _) fuel hfuel
    rw [h1] at h2
    have := Option.some.inj h2
    subst this
    exact ⟨f1, h1, m1, m2⟩
  · intro x y z
    exact foundPositions_eq_foundIndices _ fuel _ x y z

/-- The neighbour example after `insertParticlesIntoGrid`: both particles are in the cell
`(0, 0, 0)`, whose chain is 1, 0. -/
theorem neighbourFluid_rebuilt :
    neighbourFluid.insertParticlesIntoGrid =
      ⟨⟨4, [{ Particle.blank with m_pos := ⟨1, 1, 1⟩ },
            { Particle.blank with m_pos := ⟨3 / 2, 3 / 2, 3 / 2⟩, m_nextFluidIndex := 0 }]⟩, [],
        ⟨⟨0, 0, 0⟩, ⟨8, 8, 8⟩, 1, 2, true, [((0, 0, 0), 1)]⟩⟩ := by
  have hf : ⌊(2 : ℚ)⁻¹⌋ = 0 := by rw [Int.floor_eq_iff]; norm_num
  have hg : ⌊(3 : ℚ) / 2 / 2⌋ = 0 := by rw [Int.floor_eq_iff]; norm_num
  simp [neighbourFluid, FluidSph.initialize, Grid.create, FluidSph.addParticle,
    FluidParticles.addParticle, FluidSph.reset, FluidSph.clear, FluidParticles.resize,
    FluidParticles.setMaxParticles, FluidParticles.size, exampleFluid,
    FluidSph.insertParticlesIntoGrid, FluidSph.insertionInput,
    Grid.insertParticles, Grid.insertParticle, Grid.clear, exampleGrid,
    Particle.blank, Grid.cellCoord, Grid.head, INVALID_PARTICLE_INDEX, List.range,
    List.range.loop, hf, hg, List.lookup]

/-- The query at `(1, 1, 1)` on the rebuilt neighbour example visits the indices 1 and 0. -/
theorem neighbourFluid_found :
    neighbourFluid.insertParticlesIntoGrid.foundIndices
      (neighbourFluid.insertParticlesIntoGrid.m_grid.findCells 8) 2 1 1 1 = some [1, 0] := by
  rw [neighbourFluid_rebuilt]
  have h0 : ⌊(0 : ℚ)⌋ = 0 := Int.floor_zero
  have h1 : ⌊(1 : ℚ)⌋ = 1 := Int.floor_one
  have hlo : ((1 : ℚ) - 0) * 1 + -(2 / 2) = 0 := by norm_num
  have hhi : (((1 : ℚ) - 0) * 1 + 2 / 2) / 2 = 1 := by norm_num
  simp only [FluidSph.foundIndices, Grid.findCells, Grid.cornerCoord, Grid.getCellSize, hlo, hhi,
    zero_div, h0, h1]
  have hbox : cellsInBox ((0 : Int), (0 : Int), (0 : Int)) (1, 1, 1) =
      [(0, 0, 0), (0, 0, 1), (0, 1, 0), (0, 1, 1), (1, 0, 0), (1, 0, 1), (1, 1, 0), (1, 1, 1)] := by
    decide
  rw [hbox]
  decide

/-- Witness of `findCells_neighbour_complete`: cell size 2 over `[0,0,0]-[8,8,8]`, particles
at `(1,1,1)` and `(3/2,3/2,3/2)`; the query at `(1,1,1)` with radius 1 yields both indices. -/
theorem findCells_neighbour_complete_witness :
    neighbourFluid.m_grid.getCellSize / 2 = 1 ∧
    neighbourFluid.m_particles.slots.map (fun p => p.m_pos)
      = [⟨1, 1, 1⟩, ⟨3 / 2, 3 / 2, 3 / 2⟩] ∧
    neighbourFluid.insertParticlesIntoGrid.foundIndices
        (neighbourFluid.insertParticlesIntoGrid.m_grid.findCells 8) 2 1 1 1 = some [1, 0] ∧
    ∃ found, neighbourFluid.insertParticlesIntoGrid.foundIndices
        (neighbourFluid.insertParticlesIntoGrid.m_grid.findCells 8) 2 1 1 1 = some found ∧
      (1 : Int) ∈ found ∧ (0 : Int) ∈ found :=
  ⟨by simp [neighbourFluid, FluidSph.initialize, Grid.create, Grid.getCellSize,
      FluidSph.addParticle],
    by rfl, neighbourFluid_found,
    (findCells_neighbour_complete 8 (le_refl 8) neighbourFluid 1 (by norm_num) (by rfl) (by rfl)
      0 1 { Particle.blank with m_pos := ⟨1, 1, 1⟩ }
      { Particle.blank with m_pos := ⟨3 / 2, 3 / 2, 3 / 2⟩ } (by rfl) (by rfl)
      (by simp [neighbourFluid, FluidSph.initialize, Grid.create, FluidSph.addParticle,
        distanceSq]; norm_num) 2 (by decide)).2.1⟩

end BulletFluids
